import Mathlib

/-!
# Verification of the motion-graphics-studio timeline core

A shallow embedding, in Lean 4, of the timeline clip/keyframe editing and
resize engine of the `motion-graphics-studio` repository:

* the keyframe math utilities (`src/lib/utils/keyframes.ts`),
* the keyframe interpolation function (`src/routes/+page.svelte`),
* the timeline aggregate store actions (`src/lib/stores/timeline.ts`),
* the two clip-resize implementations found in `src/lib/components/Timeline.svelte`
  (a canvas-based handler `handleMouseMove`, and a component-based handler
  `handleWindowMouseMove` / `updateKeyframesForResize`).

JavaScript numbers are modelled as rationals (`ℚ`); every arithmetic step in
the source is exact on the inputs considered here except `0/0`, which JS
evaluates to `NaN` — where the source can produce `NaN` the embedding returns
`Option ℚ` with `none` standing for `NaN`.  Definitions follow the source
line by line; theorems then state the specified properties about them.
-/

/-- A keyframe `{time, value}` (interface `Keyframe`, src/lib/utils/keyframes.ts).
Times are in seconds, relative to the owning clip's start. -/
structure Keyframe where
  time : ℚ
  value : ℚ
deriving DecidableEq, Repr

/-- Constraint record for keyframe clamping (interface `KeyframeConstraints`,
src/lib/utils/keyframes.ts).  Optional fields are `Option`; in the source
`constraints.snapGrid` is tested for JS truthiness, so `snapGrid = some 0`
behaves like `none` (see `clampTimeToAdjacentKeyframes`). -/
structure KeyframeConstraints where
  minTime : ℚ
  maxTime : ℚ
  minValue : Option ℚ
  maxValue : Option ℚ
  snapGrid : Option ℚ
deriving DecidableEq, Repr

/-- `clampTimeToAdjacentKeyframes` (src/lib/utils/keyframes.ts, lines 30-65).
`minGap = 0.02`.  The neighbour accesses `keyframes[currentIndex ± 1]` are
guarded exactly as in the source (`currentIndex > 0`,
`currentIndex < keyframes.length - 1`); `getD` never fires its default under
those guards when `currentIndex < keyframes.length`.  JS `Math.round` rounds
half-way cases toward `+∞`, as does Mathlib's `round` on `ℚ`. -/
def clampTimeToAdjacentKeyframes (time : ℚ) (keyframes : List Keyframe)
    (currentIndex : ℕ) (constraints : KeyframeConstraints) : ℚ :=
  let minGap : ℚ := 1/50
  let minTime :=
    if currentIndex > 0 then
      max constraints.minTime ((keyframes.getD (currentIndex - 1) ⟨0, 0⟩).time + minGap)
    else constraints.minTime
  let maxTime :=
    if currentIndex < keyframes.length - 1 then
      min constraints.maxTime ((keyframes.getD (currentIndex + 1) ⟨0, 0⟩).time - minGap)
    else constraints.maxTime
  let clampedTime := max minTime (min maxTime time)
  match constraints.snapGrid with
  | some g =>
      if g ≠ 0 then max minTime (min maxTime ((round (clampedTime / g) : ℚ) * g))
      else clampedTime
  | none => clampedTime

/-- `clampValue` (src/lib/utils/keyframes.ts, lines 70-76).  The source's
default arguments `minValue = 0`, `maxValue = 1` are supplied by callers here. -/
def clampValue (value : ℚ) (minValue : ℚ) (maxValue : ℚ) : ℚ :=
  max minValue (min maxValue value)

/-- `moveKeyframe` (src/lib/utils/keyframes.ts, lines 88-123).  The source
throws when no keyframe lies within `0.01` of `currentTime`; the embedding
returns `none` in that case.  The function reads but never writes its input
list (it is pure in the source as well). -/
def moveKeyframe (keyframes : List Keyframe) (currentTime newTime newValue : ℚ)
    (constraints : KeyframeConstraints) : Option (ℚ × ℚ) :=
  match keyframes.findIdx? (fun kf => |kf.time - currentTime| < 1/100) with
  | none => none
  | some currentIndex =>
      some (clampTimeToAdjacentKeyframes newTime keyframes currentIndex constraints,
            clampValue newValue (constraints.minValue.getD 0) (constraints.maxValue.getD 1))

/-- `findKeyframeIndex` (src/lib/utils/keyframes.ts, lines 172-178); the
source returns `-1` when no keyframe matches, modelled as `none`. -/
def findKeyframeIndex (keyframes : List Keyframe) (time : ℚ) (tolerance : ℚ) : Option ℕ :=
  keyframes.findIdx? (fun kf => |kf.time - time| < tolerance)

/-- The effective lower bound used inside `clampTimeToAdjacentKeyframes`:
the caller's `minTime`, tightened by the left neighbour when it exists. -/
def effectiveMinTime (keyframes : List Keyframe) (currentIndex : ℕ)
    (constraints : KeyframeConstraints) : ℚ :=
  if currentIndex > 0 then
    max constraints.minTime ((keyframes.getD (currentIndex - 1) ⟨0, 0⟩).time + 1/50)
  else constraints.minTime

/-- The effective upper bound used inside `clampTimeToAdjacentKeyframes`:
the caller's `maxTime`, tightened by the right neighbour when it exists. -/
def effectiveMaxTime (keyframes : List Keyframe) (currentIndex : ℕ)
    (constraints : KeyframeConstraints) : ℚ :=
  if currentIndex < keyframes.length - 1 then
    min constraints.maxTime ((keyframes.getD (currentIndex + 1) ⟨0, 0⟩).time - 1/50)
  else constraints.maxTime

/-- The snap-grid step of `clampTimeToAdjacentKeyframes` (lines 57-62 of
keyframes.ts): round the clamped time to the grid, then re-clamp. -/
def applySnapGrid (mn mx c : ℚ) : Option ℚ → ℚ
  | some g => if g ≠ 0 then max mn (min mx ((round (c / g) : ℚ) * g)) else c
  | none => c

theorem clampTimeToAdjacentKeyframes_eq (time : ℚ) (keyframes : List Keyframe)
    (currentIndex : ℕ) (constraints : KeyframeConstraints) :
    clampTimeToAdjacentKeyframes time keyframes currentIndex constraints =
      applySnapGrid (effectiveMinTime keyframes currentIndex constraints)
        (effectiveMaxTime keyframes currentIndex constraints)
        (max (effectiveMinTime keyframes currentIndex constraints)
          (min (effectiveMaxTime keyframes currentIndex constraints) time))
        constraints.snapGrid := by
  unfold clampTimeToAdjacentKeyframes applySnapGrid effectiveMinTime effectiveMaxTime
  cases constraints.snapGrid <;> rfl

theorem applySnapGrid_mem {mn mx c : ℚ} (sg : Option ℚ) (hfeas : mn ≤ mx)
    (hc₁ : mn ≤ c) (hc₂ : c ≤ mx) :
    mn ≤ applySnapGrid mn mx c sg ∧ applySnapGrid mn mx c sg ≤ mx := by
  cases sg with
  | none => exact ⟨hc₁, hc₂⟩
  | some g =>
      by_cases hg : g = 0
      · have h : applySnapGrid mn mx c (some g) = c := by simp [applySnapGrid, hg]
        rw [h]; exact ⟨hc₁, hc₂⟩
      · have h : applySnapGrid mn mx c (some g) =
            max mn (min mx ((round (c / g) : ℚ) * g)) := by simp [applySnapGrid, hg]
        rw [h]; exact ⟨le_max_left _ _, max_le hfeas (min_le_left _ _)⟩

theorem clampTime_mem_effective_interval (time : ℚ) (keyframes : List Keyframe)
    (currentIndex : ℕ) (constraints : KeyframeConstraints)
    (hfeas : effectiveMinTime keyframes currentIndex constraints ≤
      effectiveMaxTime keyframes currentIndex constraints) :
    effectiveMinTime keyframes currentIndex constraints ≤
        clampTimeToAdjacentKeyframes time keyframes currentIndex constraints ∧
      clampTimeToAdjacentKeyframes time keyframes currentIndex constraints ≤
        effectiveMaxTime keyframes currentIndex constraints := by
  rw [clampTimeToAdjacentKeyframes_eq]
  exact applySnapGrid_mem _ hfeas (le_max_left _ _) (max_le hfeas (min_le_left _ _))

theorem minTime_le_effectiveMinTime (keyframes : List Keyframe) (currentIndex : ℕ)
    (constraints : KeyframeConstraints) :
    constraints.minTime ≤ effectiveMinTime keyframes currentIndex constraints := by
  unfold effectiveMinTime
  split
  · exact le_max_left _ _
  · exact le_refl _

theorem effectiveMaxTime_le_maxTime (keyframes : List Keyframe) (currentIndex : ℕ)
    (constraints : KeyframeConstraints) :
    effectiveMaxTime keyframes currentIndex constraints ≤ constraints.maxTime := by
  unfold effectiveMaxTime
  split
  · exact min_le_left _ _
  · exact le_refl _

theorem prevGap_le_effectiveMinTime (keyframes : List Keyframe) (currentIndex : ℕ)
    (constraints : KeyframeConstraints) (h : 0 < currentIndex) :
    (keyframes.getD (currentIndex - 1) ⟨0, 0⟩).time + 1/50 ≤
      effectiveMinTime keyframes currentIndex constraints := by
  unfold effectiveMinTime
  rw [if_pos h]
  exact le_max_right _ _

theorem effectiveMaxTime_le_nextGap (keyframes : List Keyframe) (currentIndex : ℕ)
    (constraints : KeyframeConstraints) (h : currentIndex < keyframes.length - 1) :
    effectiveMaxTime keyframes currentIndex constraints ≤
      (keyframes.getD (currentIndex + 1) ⟨0, 0⟩).time - 1/50 := by
  unfold effectiveMaxTime
  rw [if_pos h]
  exact min_le_right _ _

/-- **C7** (amended): for a keyframes list, an index `movingIndex` into it, and a
constraints record whose effective clamp interval — `[minTime, maxTime]` tightened
by the `0.02` neighbour gaps — is nonempty, `clampTimeToAdjacentKeyframes` returns
a value within `[minTime, maxTime]`, at least `0.02` above the left neighbour's
time when it exists, at most `0.02` below the right neighbour's time when it
exists, and when a nonzero `snapGrid` is given the result is the nearest multiple
of the grid re-clamped into the effective interval (so neighbour constraints win
over snapping).  The function is total (it never fails).  Without the
nonemptiness hypothesis the claim is false: see the counterexample. -/
theorem clampTimeToAdjacentKeyframes_spec (time : ℚ) (keyframes : List Keyframe)
    (currentIndex : ℕ) (constraints : KeyframeConstraints)
    (hidx : currentIndex < keyframes.length)
    (hfeas : effectiveMinTime keyframes currentIndex constraints ≤
      effectiveMaxTime keyframes currentIndex constraints) :
    (constraints.minTime ≤ clampTimeToAdjacentKeyframes time keyframes currentIndex constraints ∧
      clampTimeToAdjacentKeyframes time keyframes currentIndex constraints ≤
        constraints.maxTime) ∧
    (0 < currentIndex →
      (keyframes.getD (currentIndex - 1) ⟨0, 0⟩).time + 1/50 ≤
        clampTimeToAdjacentKeyframes time keyframes currentIndex constraints) ∧
    (currentIndex < keyframes.length - 1 →
      clampTimeToAdjacentKeyframes time keyframes currentIndex constraints ≤
        (keyframes.getD (currentIndex + 1) ⟨0, 0⟩).time - 1/50) ∧
    (∀ g, constraints.snapGrid = some g → g ≠ 0 →
      clampTimeToAdjacentKeyframes time keyframes currentIndex constraints =
        max (effectiveMinTime keyframes currentIndex constraints)
          (min (effectiveMaxTime keyframes currentIndex constraints)
            ((round ((max (effectiveMinTime keyframes currentIndex constraints)
                (min (effectiveMaxTime keyframes currentIndex constraints) time)) / g) : ℚ)
              * g))) := by
  obtain ⟨h₁, h₂⟩ := clampTime_mem_effective_interval time keyframes currentIndex constraints hfeas
  refine ⟨⟨le_trans (minTime_le_effectiveMinTime _ _ _) h₁,
    le_trans h₂ (effectiveMaxTime_le_maxTime _ _ _)⟩, ?_, ?_, ?_⟩
  · intro h
    exact le_trans (prevGap_le_effectiveMinTime keyframes currentIndex constraints h) h₁
  · intro h
    exact le_trans h₂ (effectiveMaxTime_le_nextGap keyframes currentIndex constraints h)
  · intro g hg hgne
    rw [clampTimeToAdjacentKeyframes_eq, hg]
    simp [applySnapGrid, hgne]

/-- Witness for `clampTimeToAdjacentKeyframes_spec`: keyframes at times
`0, 5, 10`, moving index `1`, constraints `[0, 20]` with snap grid `0.1`. -/
theorem clampTimeToAdjacentKeyframes_spec_witness :
    (1 < ([⟨0, 0⟩, ⟨5, 1⟩, ⟨10, 0⟩] : List Keyframe).length ∧
      effectiveMinTime [⟨0, 0⟩, ⟨5, 1⟩, ⟨10, 0⟩] 1 ⟨0, 20, none, none, some (1/10)⟩ ≤
        effectiveMaxTime [⟨0, 0⟩, ⟨5, 1⟩, ⟨10, 0⟩] 1 ⟨0, 20, none, none, some (1/10)⟩) ∧
    ((0 : ℚ) ≤ clampTimeToAdjacentKeyframes 7 [⟨0, 0⟩, ⟨5, 1⟩, ⟨10, 0⟩] 1
        ⟨0, 20, none, none, some (1/10)⟩ ∧
      clampTimeToAdjacentKeyframes 7 [⟨0, 0⟩, ⟨5, 1⟩, ⟨10, 0⟩] 1
        ⟨0, 20, none, none, some (1/10)⟩ ≤ (20 : ℚ)) :=
  ⟨⟨by decide,
      by norm_num [effectiveMinTime, effectiveMaxTime, max_def, min_def, List.getD]⟩,
    (clampTimeToAdjacentKeyframes_spec 7 [⟨0, 0⟩, ⟨5, 1⟩, ⟨10, 0⟩] 1
      ⟨0, 20, none, none, some (1/10)⟩ (by decide)
      (by norm_num [effectiveMinTime, effectiveMaxTime, max_def, min_def, List.getD])).1⟩

/-- **C7** counterexample: the claim as stated fails without the feasibility
hypothesis.  For the sorted list with keyframes at `0` and `0.03` (gap `0.03`),
moving index `0`, and constraints `minTime = 0.05`, `maxTime = 10`, the
returned time is `0.05`, which is NOT at least `0.02` less than the right
neighbour's time `0.03`. -/
theorem clampTimeToAdjacentKeyframes_counterexample :
    clampTimeToAdjacentKeyframes 0 [⟨0, 0⟩, ⟨3/100, 0⟩] 0 ⟨1/20, 10, none, none, none⟩ = 1/20 ∧
    ¬(clampTimeToAdjacentKeyframes 0 [⟨0, 0⟩, ⟨3/100, 0⟩] 0 ⟨1/20, 10, none, none, none⟩ ≤
        3/100 - 1/50) := by
  constructor
  · norm_num [clampTimeToAdjacentKeyframes, max_def, min_def, List.getD]
  · norm_num [clampTimeToAdjacentKeyframes, max_def, min_def, List.getD]

/-- **C8**: `moveKeyframe` fails (throws, modelled `none`) if and only if no
keyframe in the list lies strictly within `0.01` of `currentTime`; when one
exists (at the first such index, as `findIndex` returns), it returns the pair
of the clamped time at that index and the clamped value with default bounds
`[0, 1]`.  The embedding is a pure function on immutable lists, as is the
source, so the input list is not mutated. -/
theorem moveKeyframe_spec (keyframes : List Keyframe) (currentTime newTime newValue : ℚ)
    (constraints : KeyframeConstraints) :
    (moveKeyframe keyframes currentTime newTime newValue constraints = none ↔
      ∀ kf ∈ keyframes, ¬(|kf.time - currentTime| < 1/100)) ∧
    (∀ i, keyframes.findIdx? (fun kf => |kf.time - currentTime| < 1/100) = some i →
      moveKeyframe keyframes currentTime newTime newValue constraints =
        some (clampTimeToAdjacentKeyframes newTime keyframes i constraints,
          clampValue newValue (constraints.minValue.getD 0) (constraints.maxValue.getD 1))) := by
  constructor
  · rw [show (moveKeyframe keyframes currentTime newTime newValue constraints = none ↔
        keyframes.findIdx? (fun kf => |kf.time - currentTime| < 1/100) = none) from ?_]
    · rw [List.findIdx?_eq_none_iff]
      simp
    · unfold moveKeyframe
      cases h : keyframes.findIdx? (fun kf => |kf.time - currentTime| < 1/100) <;> simp [h]
  · intro i hi
    unfold moveKeyframe
    rw [hi]

/-- Witness for `moveKeyframe_spec`: moving the keyframe at time `5` of
`[(0,0), (5,1)]` to `(7, 2)` under constraints `[0, 10]` yields `(7, 1)`. -/
theorem moveKeyframe_spec_witness :
    moveKeyframe [⟨0, 0⟩, ⟨5, 1⟩] 5 7 2 ⟨0, 10, none, none, none⟩ = some (7, 1) := by
  have h := (moveKeyframe_spec [⟨0, 0⟩, ⟨5, 1⟩] 5 7 2 ⟨0, 10, none, none, none⟩).2 1
    (by norm_num [List.findIdx?_cons])
  rw [h]
  norm_num [clampTimeToAdjacentKeyframes, clampValue, max_def, min_def, List.getD]

/-- The keyframe-scanning loop of `interpolateKeyframes`
(src/routes/+page.svelte, lines 259-270): walk the list, remembering the last
keyframe with `time ≤ t` as `before`, and break at the first keyframe with
`time ≥ t`, which becomes `after`. -/
def findSurrounding : List Keyframe → ℚ → Option Keyframe → Option Keyframe × Option Keyframe
  | [], _, before => (before, none)
  | kf :: rest, time, before =>
      if time ≤ kf.time then ((if kf.time ≤ time then some kf else before), some kf)
      else findSurrounding rest time (if kf.time ≤ time then some kf else before)

/-- `interpolateKeyframes` (src/routes/+page.svelte, lines 255-284).  The
source divides by `after.time - before.time`; when `before` and `after` are
the same keyframe (which happens exactly when `time` hits a keyframe's time)
this is JS `0/0 = NaN`, and the NaN propagates to the returned value.  The
embedding returns `none` for that NaN outcome and `some` of the exact
rational value everywhere else. -/
def interpolateKeyframes (keyframes : List Keyframe) (time : ℚ) : Option ℚ :=
  if keyframes.length = 0 then some 0
  else if keyframes.length = 1 then some (keyframes.getD 0 ⟨0, 0⟩).value
  else
    match findSurrounding keyframes time none with
    | (none, some after) => some after.value
    | (some before, none) => some before.value
    | (some before, some after) =>
        if after.time - before.time = 0 then none
        else some (before.value + (after.value - before.value) *
            ((time - before.time) / (after.time - before.time)))
    | (none, none) => some 0

theorem findSurrounding_nil (time : ℚ) (b : Option Keyframe) :
    findSurrounding [] time b = (b, none) := rfl

theorem findSurrounding_cons (kf : Keyframe) (rest : List Keyframe) (time : ℚ)
    (b : Option Keyframe) :
    findSurrounding (kf :: rest) time b =
      if time ≤ kf.time then (if kf.time ≤ time then some kf else b, some kf)
      else findSurrounding rest time (if kf.time ≤ time then some kf else b) := rfl

theorem getLast?_elim_cons (k : Keyframe) (l : List Keyframe) (b : Option Keyframe) :
    ((k :: l).getLast?.elim b some : Option Keyframe) = l.getLast?.elim (some k) some := by
  cases l with
  | nil => rfl
  | cons k₂ l =>
      rw [List.getLast?_cons_cons]
      cases hl : (k₂ :: l).getLast? with
      | none => simp at hl
      | some x => rfl

/-- Walking past a prefix whose keyframe times are all strictly below `time`
carries the prefix's last element as the `before` accumulator. -/
theorem findSurrounding_append (l₁ l₂ : List Keyframe) (time : ℚ) (b : Option Keyframe)
    (h : ∀ kf ∈ l₁, kf.time < time) :
    findSurrounding (l₁ ++ l₂) time b =
      findSurrounding l₂ time (l₁.getLast?.elim b some) := by
  induction l₁ generalizing b with
  | nil => rfl
  | cons k l₁ ih =>
      have hk : k.time < time := h k (List.mem_cons_self k l₁)
      have hrest : ∀ kf ∈ l₁, kf.time < time := fun kf hkf => h kf (List.mem_cons_of_mem k hkf)
      rw [List.cons_append, findSurrounding_cons, if_neg (by exact not_le.mpr hk),
        if_pos (le_of_lt hk), ih (some k) hrest, getLast?_elim_cons]

/-- **C10** (amended): `interpolateKeyframes` returns `0` on the empty list, the
sole value for a one-element list, the first keyframe's value strictly before
the first keyframe, the last keyframe's value strictly after the last, and the
linear-interpolation formula strictly between two bracketing keyframes.
However, at a time exactly equal to a keyframe's time in a list with at least
two keyframes, the scan makes `before` and `after` the same keyframe and the
source computes `0/0 = NaN` (modelled `none`) — not that keyframe's value. -/
theorem interpolateKeyframes_spec (keyframes : List Keyframe) (time : ℚ)
    (hs : List.Pairwise (fun a b : Keyframe => a.time < b.time) keyframes) :
    (keyframes = [] → interpolateKeyframes keyframes time = some 0) ∧
    (∀ kf, keyframes = [kf] → interpolateKeyframes keyframes time = some kf.value) ∧
    (∀ kf rest, keyframes = kf :: rest → time < kf.time →
      interpolateKeyframes keyframes time = some kf.value) ∧
    ((∀ kf ∈ keyframes, kf.time < time) → keyframes ≠ [] →
      interpolateKeyframes keyframes time =
        keyframes.getLast?.elim (some 0) (fun kf => some kf.value)) ∧
    (∀ l₁ b a l₂, keyframes = l₁ ++ b :: a :: l₂ → b.time < time → time < a.time →
      interpolateKeyframes keyframes time =
        some (b.value + (a.value - b.value) * ((time - b.time) / (a.time - b.time)))) ∧
    (∀ kf ∈ keyframes, kf.time = time → 2 ≤ keyframes.length →
      interpolateKeyframes keyframes time = none) := by
  refine ⟨?_, ?_, ?_, ?_, ?_, ?_⟩
  · intro h; subst h; rfl
  · intro kf h; subst h; rfl
  · intro kf rest hkeq htl
    subst hkeq
    cases rest with
    | nil => rfl
    | cons k₂ r₂ =>
        have h₂ : ¬((kf :: k₂ :: r₂ : List Keyframe).length = 0) := by simp
        have h₃ : ¬((kf :: k₂ :: r₂ : List Keyframe).length = 1) := by simp
        unfold interpolateKeyframes
        rw [if_neg h₂, if_neg h₃, findSurrounding_cons, if_pos (le_of_lt htl),
          if_neg (not_le.mpr htl)]
  · intro hall hne
    cases hke : keyframes with
    | nil => exact absurd hke hne
    | cons kf rest =>
        subst hke
        cases rest with
        | nil => rfl
        | cons k₂ r₂ =>
            have h₂ : ¬((kf :: k₂ :: r₂ : List Keyframe).length = 0) := by simp
            have h₃ : ¬((kf :: k₂ :: r₂ : List Keyframe).length = 1) := by simp
            have hfs := findSurrounding_append (kf :: k₂ :: r₂) [] time none hall
            rw [List.append_nil] at hfs
            unfold interpolateKeyframes
            rw [if_neg h₂, if_neg h₃, hfs, findSurrounding_nil]
            cases hl : (kf :: k₂ :: r₂ : List Keyframe).getLast? with
            | none => simp at hl
            | some last => rfl
  · intro l₁ b a l₂ hkeq hb ha
    subst hkeq
    have hl₁ : ∀ kf ∈ l₁, kf.time < time := by
      intro kf hkf
      have hmem : b ∈ b :: a :: l₂ := List.mem_cons_self b _
      have := (List.pairwise_append.mp hs).2.2 kf hkf b hmem
      exact lt_trans this hb
    have h₂ : ¬((l₁ ++ b :: a :: l₂ : List Keyframe).length = 0) := by
      simp [List.length_append]
    have h₃ : ¬((l₁ ++ b :: a :: l₂ : List Keyframe).length = 1) := by
      simp [List.length_append]
      omega
    have hne : ¬(a.time - b.time = 0) := by
      rw [sub_eq_zero]
      exact ne_of_gt (lt_trans hb ha)
    unfold interpolateKeyframes
    rw [if_neg h₂, if_neg h₃, findSurrounding_append l₁ (b :: a :: l₂) time none hl₁,
      findSurrounding_cons, if_neg (not_le.mpr hb), if_pos (le_of_lt hb),
      findSurrounding_cons, if_pos (le_of_lt ha), if_neg (not_le.mpr ha)]
    show (if a.time - b.time = 0 then (none : Option ℚ)
        else some (b.value + (a.value - b.value) * ((time - b.time) / (a.time - b.time)))) =
      some (b.value + (a.value - b.value) * ((time - b.time) / (a.time - b.time)))
    rw [if_neg hne]
  · intro kf hmem heq hlen
    obtain ⟨l₁, l₂, hkeq⟩ := List.append_of_mem hmem
    subst hkeq
    have hl₁ : ∀ x ∈ l₁, x.time < time := by
      intro x hx
      have hmem2 : kf ∈ kf :: l₂ := List.mem_cons_self kf _
      have := (List.pairwise_append.mp hs).2.2 x hx kf hmem2
      rw [heq] at this
      exact this
    have h₂ : ¬((l₁ ++ kf :: l₂ : List Keyframe).length = 0) := by
      simp
    have h₃ : ¬((l₁ ++ kf :: l₂ : List Keyframe).length = 1) := by
      rw [List.length_append] at hlen ⊢
      simp only [List.length_cons] at hlen ⊢
      omega
    unfold interpolateKeyframes
    rw [if_neg h₂, if_neg h₃, findSurrounding_append l₁ (kf :: l₂) time none hl₁,
      findSurrounding_cons, if_pos (le_of_eq heq.symm), if_pos (le_of_eq heq)]
    show (if kf.time - kf.time = 0 then (none : Option ℚ)
        else some (kf.value + (kf.value - kf.value) * ((time - kf.time) / (kf.time - kf.time)))) =
      none
    rw [if_pos (sub_self kf.time)]

/-- Witness for `interpolateKeyframes_spec`: interpolating `[(0,0), (2,4)]`
at time `1` (strictly between the bracketing pair) yields `2`. -/
theorem interpolateKeyframes_spec_witness :
    interpolateKeyframes [⟨0, 0⟩, ⟨2, 4⟩] 1 = some 2 := by
  have h := (interpolateKeyframes_spec [⟨0, 0⟩, ⟨2, 4⟩] 1
      (by norm_num [List.pairwise_cons])).2.2.2.2.1 [] ⟨0, 0⟩ ⟨2, 4⟩ [] rfl
      (by norm_num) (by norm_num)
  rw [h]
  norm_num

/-- **C10** counterexample: at a time exactly equal to a keyframe's time
(here `0`, the first keyframe of `[(0,3), (1,7)]`), the source returns
`NaN` (`0/0`), modelled `none` — not the keyframe's value `3` as claimed. -/
theorem interpolateKeyframes_counterexample :
    interpolateKeyframes [⟨0, 3⟩, ⟨1, 7⟩] 0 = none ∧
    interpolateKeyframes [⟨0, 3⟩, ⟨1, 7⟩] 0 ≠ some 3 := by
  have h : interpolateKeyframes [⟨0, 3⟩, ⟨1, 7⟩] 0 = none := by
    simp [interpolateKeyframes, findSurrounding]
  exact ⟨h, by rw [h]; simp⟩

/-- An automation curve: one animated parameter's keyframe list
(interface `AutomationCurve`, src/routes/+page.svelte lines 197-200). -/
structure AutomationCurve where
  parameterName : String
  keyframes : List Keyframe
deriving DecidableEq, Repr

/-- A clip (interface `Clip`, src/routes/+page.svelte lines 202-211).  The
`parameters` map (untyped `any` values used only by rendering) is outside the
claims considered here and is omitted; all other fields are kept. -/
structure Clip where
  id : String
  shaderId : String
  shaderName : String
  startTime : ℚ
  duration : ℚ
  automation : List AutomationCurve
  alpha : ℚ
deriving DecidableEq, Repr

/-- A track (interface `Track`, src/routes/+page.svelte lines 213-220). -/
structure Track where
  id : String
  name : String
  clips : List Clip
  muted : Bool
  solo : Bool
  height : ℚ
deriving DecidableEq, Repr

/-- The timeline aggregate (interface `Timeline`, src/routes/+page.svelte
lines 222-226). -/
structure Timeline where
  tracks : List Track
  duration : ℚ
  bpm : ℚ
deriving DecidableEq, Repr

/-- The source's `curve.keyframes.sort((a, b) => a.time - b.time)`
(src/lib/stores/timeline.ts line 276): a stable ascending sort by time.
Insertion sort is stable, so it computes the same list as the JS engine's
stable `Array.prototype.sort` for every input. -/
def sortKeyframesByTime (kfs : List Keyframe) : List Keyframe :=
  List.insertionSort (fun a b => a.time ≤ b.time) kfs

/-- The source's in-place `curve.keyframes[existingIndex].value = value`
(src/lib/stores/timeline.ts line 272): replace the value, keep the time, at
one index. -/
def overwriteValueAt : List Keyframe → ℕ → ℚ → List Keyframe
  | [], _, _ => []
  | kf :: rest, 0, v => ⟨kf.time, v⟩ :: rest
  | kf :: rest, n + 1, v => kf :: overwriteValueAt rest n v

/-- The keyframe-list update of `timelineActions.addKeyframe`
(src/lib/stores/timeline.ts lines 266-277): overwrite the value of the first
keyframe within `0.01` of `time` if one exists, otherwise push the new
keyframe and re-sort ascending by time. -/
def addKeyframeToKeyframes (kfs : List Keyframe) (time value : ℚ) : List Keyframe :=
  match kfs.findIdx? (fun kf => |kf.time - time| < 1/100) with
  | some existingIndex => overwriteValueAt kfs existingIndex value
  | none => sortKeyframesByTime (kfs ++ [⟨time, value⟩])

/-- The automation-list update of `timelineActions.addKeyframe`
(src/lib/stores/timeline.ts lines 255-278): the source locates the first
curve with the given name via `findIndex` and updates it, or pushes a fresh
one-keyframe curve when none matches; this recursion computes the same
list. -/
def addKeyframeToAutomation : List AutomationCurve → String → ℚ → ℚ → List AutomationCurve
  | [], parameterName, time, value => [⟨parameterName, [⟨time, value⟩]⟩]
  | c :: rest, parameterName, time, value =>
      if c.parameterName = parameterName then
        ⟨c.parameterName, addKeyframeToKeyframes c.keyframes time value⟩ :: rest
      else c :: addKeyframeToAutomation rest parameterName time value

/-- `timelineActions.removeKeyframe`'s automation update
(src/lib/stores/timeline.ts lines 297-304): drop keyframes within `0.01` of
`time` from the named curve, then prune every curve left with no
keyframes. -/
def removeKeyframeFromAutomation (automation : List AutomationCurve)
    (parameterName : String) (time : ℚ) : List AutomationCurve :=
  (automation.map fun curve =>
    if curve.parameterName = parameterName then
      ⟨curve.parameterName, curve.keyframes.filter (fun kf => 1/100 ≤ |kf.time - time|)⟩
    else curve).filter fun curve => 0 < curve.keyframes.length

/-- `timelineActions.updateKeyframe`'s automation update
(src/lib/stores/timeline.ts lines 323-332): rewrite the value of keyframes
within `0.01` of `time` in the named curve. -/
def updateKeyframeInAutomation (automation : List AutomationCurve)
    (parameterName : String) (time value : ℚ) : List AutomationCurve :=
  automation.map fun curve =>
    if curve.parameterName = parameterName then
      ⟨curve.parameterName,
        curve.keyframes.map fun kf => if |kf.time - time| < 1/100 then ⟨kf.time, value⟩ else kf⟩
    else curve

/-- `timelineActions.clearKeyframes`'s automation update
(src/lib/stores/timeline.ts line 351): remove the named curve entirely. -/
def clearKeyframesInAutomation (automation : List AutomationCurve)
    (parameterName : String) : List AutomationCurve :=
  automation.filter fun curve => curve.parameterName ≠ parameterName

/-- The per-clip rewrite pattern shared by all clip-targeted store actions
(src/lib/stores/timeline.ts): map over every track's clips and replace the
clips whose id matches. -/
def updateClip (clipId : String) (f : Clip → Clip) (t : Timeline) : Timeline :=
  { t with tracks := t.tracks.map fun track =>
      { track with clips := track.clips.map fun clip =>
          if clip.id = clipId then f clip else clip } }

/-- `timelineActions.addTrack` (src/lib/stores/timeline.ts lines 83-98); the
`uuidv4()` id is modelled as an argument. -/
def timelineAddTrack (newId : String) (t : Timeline) : Timeline :=
  { t with tracks := t.tracks ++
      [⟨newId, "Track " ++ toString (t.tracks.length + 1), [], false, false, 100⟩] }

/-- `timelineActions.removeTrack` (src/lib/stores/timeline.ts lines 103-108). -/
def timelineRemoveTrack (trackId : String) (t : Timeline) : Timeline :=
  { t with tracks := t.tracks.filter fun track => track.id ≠ trackId }

/-- `timelineActions.addClip` (src/lib/stores/timeline.ts lines 113-151); the
`uuidv4()` clip id is an argument, and the parameter seeding from the shader
library (an out-of-scope collaborator) is omitted along with the `parameters`
map itself. -/
def timelineAddClip (trackId clipId shaderName : String) (startTime duration : ℚ)
    (t : Timeline) : Timeline :=
  { t with tracks := t.tracks.map fun track =>
      if track.id = trackId then
        { track with clips := track.clips ++
            [⟨clipId, shaderName, shaderName, startTime, duration, [], 1⟩] }
      else track }

/-- `timelineActions.removeClip` (src/lib/stores/timeline.ts lines 156-164). -/
def timelineRemoveClip (clipId : String) (t : Timeline) : Timeline :=
  { t with tracks := t.tracks.map fun track =>
      { track with clips := track.clips.filter fun clip => clip.id ≠ clipId } }

/-- `timelineActions.updateClipTime` (src/lib/stores/timeline.ts lines 169-180):
a direct overwrite of `startTime`; keyframes are not touched. -/
def timelineUpdateClipTime (clipId : String) (startTime : ℚ) : Timeline → Timeline :=
  updateClip clipId fun clip => { clip with startTime := startTime }

/-- `timelineActions.updateClipDuration` (src/lib/stores/timeline.ts lines
185-195): overwrite `duration`, floored at `0.1`. -/
def timelineUpdateClipDuration (clipId : String) (duration : ℚ) : Timeline → Timeline :=
  updateClip clipId fun clip => { clip with duration := max (1/10) duration }

/-- `timelineActions.toggleMute` (src/lib/stores/timeline.ts lines 224-231). -/
def timelineToggleMute (trackId : String) (t : Timeline) : Timeline :=
  { t with tracks := t.tracks.map fun track =>
      if track.id = trackId then { track with muted := !track.muted } else track }

/-- `timelineActions.toggleSolo` (src/lib/stores/timeline.ts lines 236-243). -/
def timelineToggleSolo (trackId : String) (t : Timeline) : Timeline :=
  { t with tracks := t.tracks.map fun track =>
      if track.id = trackId then { track with solo := !track.solo } else track }

/-- `timelineActions.addKeyframe` (src/lib/stores/timeline.ts lines 248-285). -/
def timelineAddKeyframe (clipId parameterName : String) (time value : ℚ) :
    Timeline → Timeline :=
  updateClip clipId fun clip =>
    { clip with automation := addKeyframeToAutomation clip.automation parameterName time value }

/-- `timelineActions.removeKeyframe` (src/lib/stores/timeline.ts lines 290-311). -/
def timelineRemoveKeyframe (clipId parameterName : String) (time : ℚ) :
    Timeline → Timeline :=
  updateClip clipId fun clip =>
    { clip with automation := removeKeyframeFromAutomation clip.automation parameterName time }

/-- `timelineActions.updateKeyframe` (src/lib/stores/timeline.ts lines 316-339). -/
def timelineUpdateKeyframe (clipId parameterName : String) (time value : ℚ) :
    Timeline → Timeline :=
  updateClip clipId fun clip =>
    { clip with automation :=
        updateKeyframeInAutomation clip.automation parameterName time value }

/-- `timelineActions.clearKeyframes` (src/lib/stores/timeline.ts lines 344-357). -/
def timelineClearKeyframes (clipId parameterName : String) : Timeline → Timeline :=
  updateClip clipId fun clip =>
    { clip with automation := clearKeyframesInAutomation clip.automation parameterName }

/-- The public mutation operations of the timeline store
(src/lib/stores/timeline.ts).  The two resize handlers in Timeline.svelte
mutate the store exclusively through `clearKeyframes`, `addKeyframe`,
`updateClipTime` and `updateClipDuration`, so every state reachable through a
resize is reachable through this operation alphabet. -/
inductive TimelineOp where
  | addTrack (id : String)
  | removeTrack (id : String)
  | addClip (trackId clipId shaderName : String) (startTime duration : ℚ)
  | removeClip (id : String)
  | updateClipTime (id : String) (startTime : ℚ)
  | updateClipDuration (id : String) (duration : ℚ)
  | toggleMute (id : String)
  | toggleSolo (id : String)
  | addKeyframe (clipId parameterName : String) (time value : ℚ)
  | removeKeyframe (clipId parameterName : String) (time : ℚ)
  | updateKeyframe (clipId parameterName : String) (time value : ℚ)
  | clearKeyframes (clipId parameterName : String)

/-- Dispatch one store operation. -/
def applyOp : TimelineOp → Timeline → Timeline
  | .addTrack id, t => timelineAddTrack id t
  | .removeTrack id, t => timelineRemoveTrack id t
  | .addClip trackId clipId shaderName startTime duration, t =>
      timelineAddClip trackId clipId shaderName startTime duration t
  | .removeClip id, t => timelineRemoveClip id t
  | .updateClipTime id startTime, t => timelineUpdateClipTime id startTime t
  | .updateClipDuration id duration, t => timelineUpdateClipDuration id duration t
  | .toggleMute id, t => timelineToggleMute id t
  | .toggleSolo id, t => timelineToggleSolo id t
  | .addKeyframe clipId parameterName time value, t =>
      timelineAddKeyframe clipId parameterName time value t
  | .removeKeyframe clipId parameterName time, t =>
      timelineRemoveKeyframe clipId parameterName time t
  | .updateKeyframe clipId parameterName time value, t =>
      timelineUpdateKeyframe clipId parameterName time value t
  | .clearKeyframes clipId parameterName, t =>
      timelineClearKeyframes clipId parameterName t

/-- Apply a sequence of store operations, oldest first. -/
def applyOps (ops : List TimelineOp) (t : Timeline) : Timeline :=
  ops.foldl (fun s op => applyOp op s) t

/-- `createInitialTimeline` (src/lib/stores/timeline.ts lines 9-24); the
`uuidv4()` track id is modelled as a fixed fresh identifier. -/
def initialTimeline : Timeline :=
  ⟨[⟨"track-1", "Track 1", [], false, false, 100⟩], 60, 120⟩

/-- The store states reachable from the initial timeline through the public
mutation operations. -/
def ReachableTimeline (t : Timeline) : Prop :=
  ∃ ops : List TimelineOp, t = applyOps ops initialTimeline

/-- The keyframe separation invariant the store actually maintains: within
one curve, keyframes are strictly ascending with at least `0.01` between
consecutive times (`addKeyframe` deduplicates at tolerance `0.01`, not
`0.02`). -/
def KfGapInv (kfs : List Keyframe) : Prop :=
  List.Pairwise (fun a b : Keyframe => a.time + 1/100 ≤ b.time) kfs

/-- Every curve of an automation list satisfies the separation invariant. -/
def AutomationInv (automation : List AutomationCurve) : Prop :=
  ∀ curve ∈ automation, KfGapInv curve.keyframes

/-- Every curve of every clip of every track satisfies the separation
invariant. -/
def TimelineInv (t : Timeline) : Prop :=
  ∀ track ∈ t.tracks, ∀ clip ∈ track.clips, AutomationInv clip.automation

theorem overwriteValueAt_map_time (kfs : List Keyframe) (i : ℕ) (v : ℚ) :
    (overwriteValueAt kfs i v).map Keyframe.time = kfs.map Keyframe.time := by
  induction kfs generalizing i with
  | nil => rfl
  | cons kf rest ih =>
      cases i with
      | zero => rfl
      | succ n => simp [overwriteValueAt, ih n]

theorem overwriteValueAt_length (kfs : List Keyframe) (i : ℕ) (v : ℚ) :
    (overwriteValueAt kfs i v).length = kfs.length := by
  induction kfs generalizing i with
  | nil => rfl
  | cons kf rest ih =>
      cases i with
      | zero => rfl
      | succ n => simp [overwriteValueAt, ih n]

theorem kfGapInv_iff_map (kfs : List Keyframe) :
    KfGapInv kfs ↔
      List.Pairwise (fun x y : ℚ => x + 1/100 ≤ y) (kfs.map Keyframe.time) := by
  rw [KfGapInv, List.pairwise_map]

theorem kfGapInv_overwrite (kfs : List Keyframe) (i : ℕ) (v : ℚ) (h : KfGapInv kfs) :
    KfGapInv (overwriteValueAt kfs i v) := by
  rw [kfGapInv_iff_map, overwriteValueAt_map_time]
  exact (kfGapInv_iff_map kfs).mp h

instance : IsTotal Keyframe (fun a b => a.time ≤ b.time) :=
  ⟨fun a b => le_total a.time b.time⟩

instance : IsTrans Keyframe (fun a b => a.time ≤ b.time) :=
  ⟨fun _ _ _ hab hbc => le_trans hab hbc⟩

theorem kfGapInv_insert (kfs : List Keyframe) (time value : ℚ) (h : KfGapInv kfs)
    (hfar : ∀ kf ∈ kfs, ¬(|kf.time - time| < 1/100)) :
    KfGapInv (sortKeyframesByTime (kfs ++ [⟨time, value⟩])) := by
  have hdist : List.Pairwise (fun a b : Keyframe => 1/100 ≤ |a.time - b.time|)
      (kfs ++ [⟨time, value⟩]) := by
    rw [List.pairwise_append]
    refine ⟨h.imp ?_, List.pairwise_singleton _ _, ?_⟩
    · intro a b hab
      rw [abs_sub_comm, abs_of_nonneg (by linarith)]
      linarith
    · intro x hx y hy
      simp only [List.mem_singleton] at hy
      subst hy
      exact not_lt.mp (hfar x hx)
  have hperm : (sortKeyframesByTime (kfs ++ [⟨time, value⟩])).Perm (kfs ++ [⟨time, value⟩]) :=
    List.perm_insertionSort _ _
  have hdist₂ : List.Pairwise (fun a b : Keyframe => 1/100 ≤ |a.time - b.time|)
      (sortKeyframesByTime (kfs ++ [⟨time, value⟩])) :=
    hdist.perm hperm.symm (fun hxy => by rwa [abs_sub_comm])
  have hsorted : List.Pairwise (fun a b : Keyframe => a.time ≤ b.time)
      (sortKeyframesByTime (kfs ++ [⟨time, value⟩])) :=
    List.sorted_insertionSort _ _
  refine (hsorted.and hdist₂).imp ?_
  intro a b hab
  obtain ⟨hle, hd⟩ := hab
  rw [abs_sub_comm, abs_of_nonneg (by linarith)] at hd
  linarith

theorem kfGapInv_addKeyframeToKeyframes (kfs : List Keyframe) (time value : ℚ)
    (h : KfGapInv kfs) : KfGapInv (addKeyframeToKeyframes kfs time value) := by
  unfold addKeyframeToKeyframes
  cases hidx : kfs.findIdx? (fun kf => |kf.time - time| < 1/100) with
  | some i => exact kfGapInv_overwrite kfs i value h
  | none =>
      apply kfGapInv_insert kfs time value h
      intro kf hkf
      have hfalse := List.findIdx?_eq_none_iff.mp hidx kf hkf
      simpa using hfalse

theorem automationInv_addKeyframe (automation : List AutomationCurve)
    (parameterName : String) (time value : ℚ) (h : AutomationInv automation) :
    AutomationInv (addKeyframeToAutomation automation parameterName time value) := by
  induction automation with
  | nil =>
      intro curve hc
      simp only [addKeyframeToAutomation, List.mem_singleton] at hc
      subst hc
      exact List.pairwise_singleton _ _
  | cons c rest ih =>
      intro curve hc
      unfold addKeyframeToAutomation at hc
      by_cases hp : c.parameterName = parameterName
      · rw [if_pos hp] at hc
        rcases List.mem_cons.mp hc with heq | hmem
        · subst heq
          exact kfGapInv_addKeyframeToKeyframes c.keyframes time value
            (h c (List.mem_cons_self c rest))
        · exact h curve (List.mem_cons_of_mem c hmem)
      · rw [if_neg hp] at hc
        rcases List.mem_cons.mp hc with heq | hmem
        · subst heq
          exact h curve (List.mem_cons_self curve rest)
        · exact ih (fun cv hcv => h cv (List.mem_cons_of_mem c hcv)) curve hmem

theorem automationInv_removeKeyframe (automation : List AutomationCurve)
    (parameterName : String) (time : ℚ) (h : AutomationInv automation) :
    AutomationInv (removeKeyframeFromAutomation automation parameterName time) := by
  intro curve hc
  unfold removeKeyframeFromAutomation at hc
  have hc₂ := List.mem_of_mem_filter hc
  obtain ⟨c₀, hc₀, heq⟩ := List.mem_map.mp hc₂
  by_cases hp : c₀.parameterName = parameterName
  · rw [if_pos hp] at heq
    subst heq
    exact List.Pairwise.sublist (List.filter_sublist _) (h c₀ hc₀)
  · rw [if_neg hp] at heq
    subst heq
    exact h c₀ hc₀

theorem updateValues_map_time (kfs : List Keyframe) (time value : ℚ) :
    ((kfs.map fun kf =>
        if |kf.time - time| < 1/100 then ⟨kf.time, value⟩ else kf).map Keyframe.time) =
      kfs.map Keyframe.time := by
  induction kfs with
  | nil => rfl
  | cons kf rest ih =>
      simp only [List.map_cons, ih]
      congr 1
      split <;> rfl

theorem automationInv_updateKeyframe (automation : List AutomationCurve)
    (parameterName : String) (time value : ℚ) (h : AutomationInv automation) :
    AutomationInv (updateKeyframeInAutomation automation parameterName time value) := by
  intro curve hc
  unfold updateKeyframeInAutomation at hc
  obtain ⟨c₀, hc₀, heq⟩ := List.mem_map.mp hc
  by_cases hp : c₀.parameterName = parameterName
  · rw [if_pos hp] at heq
    have hgoal : KfGapInv (c₀.keyframes.map fun kf =>
        if |kf.time - time| < 1/100 then ⟨kf.time, value⟩ else kf) := by
      rw [kfGapInv_iff_map, updateValues_map_time]
      exact (kfGapInv_iff_map _).mp (h c₀ hc₀)
    subst heq
    exact hgoal
  · rw [if_neg hp] at heq
    subst heq
    exact h c₀ hc₀

theorem automationInv_clearKeyframes (automation : List AutomationCurve)
    (parameterName : String) (h : AutomationInv automation) :
    AutomationInv (clearKeyframesInAutomation automation parameterName) := by
  intro curve hc
  exact h curve (List.mem_of_mem_filter hc)

theorem timelineInv_updateClip (clipId : String) (f : Clip → Clip) (t : Timeline)
    (hf : ∀ clip, AutomationInv clip.automation → AutomationInv (f clip).automation)
    (ht : TimelineInv t) : TimelineInv (updateClip clipId f t) := by
  intro track htr clip hclip
  unfold updateClip at htr
  simp only [List.mem_map] at htr
  obtain ⟨tr₀, htr₀, heq⟩ := htr
  subst heq
  simp only [List.mem_map] at hclip
  obtain ⟨c₀, hc₀, heqc⟩ := hclip
  by_cases hid : c₀.id = clipId
  · rw [if_pos hid] at heqc
    subst heqc
    exact hf c₀ (ht tr₀ htr₀ c₀ hc₀)
  · rw [if_neg hid] at heqc
    subst heqc
    exact ht tr₀ htr₀ c₀ hc₀

theorem timelineInv_mapTracksClipsKept (g : Track → Track) (t : Timeline)
    (hg : ∀ track, ∀ clip ∈ (g track).clips, clip ∈ track.clips ∨ clip.automation = [])
    (ht : TimelineInv t) :
    TimelineInv { t with tracks := t.tracks.map g } := by
  intro track htr clip hclip
  simp only [List.mem_map] at htr
  obtain ⟨tr₀, htr₀, heq⟩ := htr
  subst heq
  rcases hg tr₀ clip hclip with hmem | hempty
  · exact ht tr₀ htr₀ clip hmem
  · intro curve hcurve
    rw [hempty] at hcurve
    exact absurd hcurve (List.not_mem_nil curve)

theorem timelineInv_applyOp (op : TimelineOp) (t : Timeline) (ht : TimelineInv t) :
    TimelineInv (applyOp op t) := by
  cases op with
  | addTrack id =>
      intro track htr clip hclip
      unfold applyOp timelineAddTrack at htr
      rcases List.mem_append.mp htr with hold | hnew
      · exact ht track hold clip hclip
      · simp only [List.mem_singleton] at hnew
        subst hnew
        exact absurd hclip (List.not_mem_nil clip)
  | removeTrack id =>
      intro track htr clip hclip
      unfold applyOp timelineRemoveTrack at htr
      exact ht track (List.mem_of_mem_filter htr) clip hclip
  | addClip trackId clipId shaderName startTime duration =>
      apply timelineInv_mapTracksClipsKept _ _ _ ht
      intro track clip hclip
      by_cases hid : track.id = trackId
      · rw [if_pos hid] at hclip
        rcases List.mem_append.mp hclip with hold | hnew
        · exact Or.inl hold
        · simp only [List.mem_singleton] at hnew
          subst hnew
          exact Or.inr rfl
      · rw [if_neg hid] at hclip
        exact Or.inl hclip
  | removeClip id =>
      apply timelineInv_mapTracksClipsKept _ _ _ ht
      intro track clip hclip
      exact Or.inl (List.mem_of_mem_filter hclip)
  | updateClipTime id startTime =>
      exact timelineInv_updateClip _ _ _ (fun clip h => h) ht
  | updateClipDuration id duration =>
      exact timelineInv_updateClip _ _ _ (fun clip h => h) ht
  | toggleMute id =>
      apply timelineInv_mapTracksClipsKept _ _ _ ht
      intro track clip hclip
      by_cases hid : track.id = id
      · rw [if_pos hid] at hclip
        exact Or.inl hclip
      · rw [if_neg hid] at hclip
        exact Or.inl hclip
  | toggleSolo id =>
      apply timelineInv_mapTracksClipsKept _ _ _ ht
      intro track clip hclip
      by_cases hid : track.id = id
      · rw [if_pos hid] at hclip
        exact Or.inl hclip
      · rw [if_neg hid] at hclip
        exact Or.inl hclip
  | addKeyframe clipId parameterName time value =>
      exact timelineInv_updateClip _ _ _
        (fun clip h => automationInv_addKeyframe clip.automation parameterName time value h) ht
  | removeKeyframe clipId parameterName time =>
      exact timelineInv_updateClip _ _ _
        (fun clip h => automationInv_removeKeyframe clip.automation parameterName time h) ht
  | updateKeyframe clipId parameterName time value =>
      exact timelineInv_updateClip _ _ _
        (fun clip h => automationInv_updateKeyframe clip.automation parameterName time value h) ht
  | clearKeyframes clipId parameterName =>
      exact timelineInv_updateClip _ _ _
        (fun clip h => automationInv_clearKeyframes clip.automation parameterName h) ht

theorem timelineInv_applyOps (ops : List TimelineOp) (t : Timeline) (ht : TimelineInv t) :
    TimelineInv (applyOps ops t) := by
  induction ops generalizing t with
  | nil => exact ht
  | cons op rest ih => exact ih (applyOp op t) (timelineInv_applyOp op t ht)

theorem timelineInv_initial : TimelineInv initialTimeline := by
  intro track htr clip hclip
  simp only [initialTimeline, List.mem_singleton] at htr
  subst htr
  exact absurd hclip (List.not_mem_nil clip)

/-- **C5** (amended): in every store state reachable from the initial timeline
through the public mutation operations (including the resize operations,
which act on the store only through `clearKeyframes`/`addKeyframe`/
`updateClipTime`/`updateClipDuration`), every automation curve's keyframes
are strictly ascending in time with every pair (in particular every
consecutive pair) separated by at least `0.01` seconds.  The claimed bound of
`0.02` is false — `addKeyframe` deduplicates only within `0.01` and never
enforces the `0.02` gap (see the counterexample). -/
theorem timelineKeyframeInvariant (t : Timeline) (ht : ReachableTimeline t) :
    ∀ track ∈ t.tracks, ∀ clip ∈ track.clips, ∀ curve ∈ clip.automation,
      List.Pairwise (fun a b : Keyframe => a.time + 1/100 ≤ b.time) curve.keyframes := by
  obtain ⟨ops, rfl⟩ := ht
  exact timelineInv_applyOps ops initialTimeline timelineInv_initial

/-- **C5** counterexample: adding keyframes at times `0` and `0.015` to one
curve of a fresh clip is accepted by the store (the dedup tolerance is only
`0.01`), leaving two consecutive keyframes `0.015 < 0.02` apart at rest —
refuting the claimed `0.02` gap invariant. -/
theorem timelineKeyframeInvariant_counterexample :
    applyOps [.addClip "track-1" "c1" "sh" 0 5, .addKeyframe "c1" "p" 0 0,
        .addKeyframe "c1" "p" (3/200) 1] initialTimeline =
      ⟨[⟨"track-1", "Track 1",
          [⟨"c1", "sh", "sh", 0, 5, [⟨"p", [⟨0, 0⟩, ⟨3/200, 1⟩]⟩], 1⟩],
          false, false, 100⟩], 60, 120⟩ ∧
    ¬((0 : ℚ) + 1/50 ≤ 3/200) := by
  constructor
  · norm_num [applyOps, applyOp, initialTimeline, timelineAddClip, timelineAddKeyframe,
      updateClip, addKeyframeToAutomation, addKeyframeToKeyframes, sortKeyframesByTime,
      List.insertionSort, List.orderedInsert, List.findIdx?_cons, abs_lt]
  · norm_num

/-- Witness for `timelineKeyframeInvariant`: in the reachable state holding
keyframes at times `0` and `5`, the curve satisfies the `0.01` separation. -/
theorem timelineKeyframeInvariant_witness :
    List.Pairwise (fun a b : Keyframe => a.time + 1/100 ≤ b.time)
      [(⟨0, 0⟩ : Keyframe), ⟨5, 1⟩] := by
  have hreach : ReachableTimeline
      (⟨[⟨"track-1", "Track 1",
          [⟨"c1", "sh", "sh", 0, 5, [⟨"p", [⟨0, 0⟩, ⟨5, 1⟩]⟩], 1⟩],
          false, false, 100⟩], 60, 120⟩ : Timeline) := by
    refine ⟨[.addClip "track-1" "c1" "sh" 0 5, .addKeyframe "c1" "p" 0 0,
      .addKeyframe "c1" "p" 5 1], ?_⟩
    norm_num [applyOps, applyOp, initialTimeline, timelineAddClip, timelineAddKeyframe,
      updateClip, addKeyframeToAutomation, addKeyframeToKeyframes, sortKeyframesByTime,
      List.insertionSort, List.orderedInsert, List.findIdx?_cons, abs_lt]
  exact timelineKeyframeInvariant _ hreach
    ⟨"track-1", "Track 1",
      [⟨"c1", "sh", "sh", 0, 5, [⟨"p", [⟨0, 0⟩, ⟨5, 1⟩]⟩], 1⟩], false, false, 100⟩
    (List.mem_singleton.mpr rfl)
    ⟨"c1", "sh", "sh", 0, 5, [⟨"p", [⟨0, 0⟩, ⟨5, 1⟩]⟩], 1⟩
    (List.mem_singleton.mpr rfl)
    ⟨"p", [⟨0, 0⟩, ⟨5, 1⟩]⟩
    (List.mem_singleton.mpr rfl)

theorem addKeyframeToAutomation_noCurve (automation : List AutomationCurve)
    (parameterName : String) (time value : ℚ)
    (h : ∀ c ∈ automation, c.parameterName ≠ parameterName) :
    addKeyframeToAutomation automation parameterName time value =
      automation ++ [⟨parameterName, [⟨time, value⟩]⟩] := by
  induction automation with
  | nil => rfl
  | cons c rest ih =>
      unfold addKeyframeToAutomation
      rw [if_neg (h c (List.mem_cons_self c rest)),
        ih (fun cv hcv => h cv (List.mem_cons_of_mem c hcv))]
      rfl

theorem addKeyframeToAutomation_found (a₁ : List AutomationCurve) (c : AutomationCurve)
    (a₂ : List AutomationCurve) (parameterName : String) (time value : ℚ)
    (h₁ : ∀ x ∈ a₁, x.parameterName ≠ parameterName) (hc : c.parameterName = parameterName) :
    addKeyframeToAutomation (a₁ ++ c :: a₂) parameterName time value =
      a₁ ++ ⟨c.parameterName, addKeyframeToKeyframes c.keyframes time value⟩ :: a₂ := by
  induction a₁ with
  | nil =>
      rw [List.nil_append, List.nil_append]
      unfold addKeyframeToAutomation
      rw [if_pos hc]
  | cons x a₁ ih =>
      rw [List.cons_append, List.cons_append]
      unfold addKeyframeToAutomation
      rw [if_neg (h₁ x (List.mem_cons_self x a₁)),
        ih (fun cv hcv => h₁ cv (List.mem_cons_of_mem x hcv))]

theorem overwriteValueAt_getD (kfs : List Keyframe) (i : ℕ) (v : ℚ)
    (h : i < kfs.length) :
    (overwriteValueAt kfs i v).getD i ⟨0, 0⟩ = ⟨(kfs.getD i ⟨0, 0⟩).time, v⟩ := by
  induction kfs generalizing i with
  | nil => exact absurd h (by simp)
  | cons kf rest ih =>
      cases i with
      | zero => rfl
      | succ n =>
          simp only [overwriteValueAt, List.getD_cons_succ]
          exact ih n (by simpa using h)

/-- **C9**: `addKeyframe` on a clip's automation list: if no curve carries the
parameter, a new one-keyframe curve is appended; if the (first) curve with
the parameter has a keyframe within `0.01` of `time`, only that keyframe's
value is overwritten — the keyframe count and every time are unchanged;
otherwise the new keyframe is pushed and the curve re-sorted ascending by
time (a sorted permutation of the old keyframes plus the new one).  The store
action `timelineAddKeyframe` applies exactly this transformation to every
clip whose id matches. -/
theorem timelineAddKeyframe_spec (automation : List AutomationCurve)
    (parameterName : String) (time value : ℚ) :
    ((∀ c ∈ automation, c.parameterName ≠ parameterName) →
      addKeyframeToAutomation automation parameterName time value =
        automation ++ [⟨parameterName, [⟨time, value⟩]⟩]) ∧
    (∀ a₁ c a₂, automation = a₁ ++ c :: a₂ →
      (∀ x ∈ a₁, x.parameterName ≠ parameterName) → c.parameterName = parameterName →
      (∀ i, c.keyframes.findIdx? (fun kf => |kf.time - time| < 1/100) = some i →
        addKeyframeToAutomation automation parameterName time value =
          a₁ ++ ⟨c.parameterName, overwriteValueAt c.keyframes i value⟩ :: a₂ ∧
        (overwriteValueAt c.keyframes i value).length = c.keyframes.length ∧
        (overwriteValueAt c.keyframes i value).map Keyframe.time =
          c.keyframes.map Keyframe.time ∧
        (i < c.keyframes.length →
          (overwriteValueAt c.keyframes i value).getD i ⟨0, 0⟩ =
            ⟨(c.keyframes.getD i ⟨0, 0⟩).time, value⟩)) ∧
      (c.keyframes.findIdx? (fun kf => |kf.time - time| < 1/100) = none →
        addKeyframeToAutomation automation parameterName time value =
          a₁ ++ ⟨c.parameterName,
            sortKeyframesByTime (c.keyframes ++ [⟨time, value⟩])⟩ :: a₂ ∧
        (sortKeyframesByTime (c.keyframes ++ [⟨time, value⟩])).Perm
          (c.keyframes ++ [⟨time, value⟩]) ∧
        List.Pairwise (fun a b : Keyframe => a.time ≤ b.time)
          (sortKeyframesByTime (c.keyframes ++ [⟨time, value⟩])))) := by
  refine ⟨addKeyframeToAutomation_noCurve automation parameterName time value, ?_⟩
  intro a₁ c a₂ hsplit h₁ hc
  subst hsplit
  constructor
  · intro i hi
    refine ⟨?_, overwriteValueAt_length c.keyframes i value,
      overwriteValueAt_map_time c.keyframes i value,
      fun hlen => overwriteValueAt_getD c.keyframes i value hlen⟩
    rw [addKeyframeToAutomation_found a₁ c a₂ parameterName time value h₁ hc]
    unfold addKeyframeToKeyframes
    rw [hi]
  · intro hnone
    refine ⟨?_, List.perm_insertionSort _ _, List.sorted_insertionSort _ _⟩
    rw [addKeyframeToAutomation_found a₁ c a₂ parameterName time value h₁ hc]
    unfold addKeyframeToKeyframes
    rw [hnone]

/-- Witness for `timelineAddKeyframe_spec`: adding `(5.005, 9)` to a curve
with keyframes at `0` and `5` overwrites the value of the keyframe at `5`
(within `0.01`), leaving the times and the count unchanged. -/
theorem timelineAddKeyframe_spec_witness :
    addKeyframeToAutomation [⟨"p", [⟨0, 0⟩, ⟨5, 1⟩]⟩] "p" (1001/200) 9 =
      [⟨"p", [⟨0, 0⟩, ⟨5, 9⟩]⟩] := by
  have h := ((timelineAddKeyframe_spec [⟨"p", [⟨0, 0⟩, ⟨5, 1⟩]⟩] "p" (1001/200) 9).2
      [] ⟨"p", [⟨0, 0⟩, ⟨5, 1⟩]⟩ [] rfl (by simp) rfl).1 1
      (by norm_num [List.findIdx?_cons, abs_lt])
  rw [h.1]
  norm_num [overwriteValueAt]

/-- One entry of the resize gesture's keyframe snapshot: the
`{curve, time, value}` triples collected into `originalKeyframes` at drag
start (Timeline.svelte, `handleClipResizeStart` lines 1108-1118 and the
canvas handler's mouse-down). -/
structure FlatKeyframe where
  curve : String
  time : ℚ
  value : ℚ
deriving DecidableEq, Repr

/-- The immutable drag snapshot both resize handlers compute from:
`originalClipStartTime`, `originalClipDuration`, `originalKeyframes`. -/
structure DragSnapshot where
  originalStartTime : ℚ
  originalDuration : ℚ
  originalKeyframes : List FlatKeyframe
deriving DecidableEq, Repr

/-- `Math.min(...originalKeyframes.map(kf => kf.time))` for a nonempty list
(Timeline.svelte lines 702-704); the `[]` default is never reached because
both handlers guard on `originalKeyframes.length > 0`. -/
def minimumTime : List FlatKeyframe → ℚ
  | [] => 0
  | kf :: rest => rest.foldl (fun m k => min m k.time) kf.time

/-- `Math.max(...originalKeyframes.map(kf => kf.time))` for a nonempty list
(Timeline.svelte lines 792-794). -/
def maximumTime : List FlatKeyframe → ℚ
  | [] => 0
  | kf :: rest => rest.foldl (fun m k => max m k.time) kf.time

/-- Which of the two resize implementations in Timeline.svelte is running:
the canvas-based `handleMouseMove` (lines 685-858) or the component-based
`handleWindowMouseMove` / `updateKeyframesForResize` (lines 1127-1255). -/
inductive ResizeImpl where
  | canvas
  | window
deriving DecidableEq, Repr

/-- Which clip edge is being dragged. -/
inductive ResizeHandle where
  | left
  | right
deriving DecidableEq, Repr

/-- The values a resize move event computes from the snapshot before writing
to the store: the new start time, the new duration, and the flat list of
recomputed keyframes (curve, new relative time, value) — the `updates` array
in the source before it is grouped by curve. -/
structure ResizeOutcome where
  newStart : ℚ
  newDuration : ℚ
  updates : List FlatKeyframe
deriving DecidableEq, Repr

/-- The absolute-mode left-edge keyframe clamp, which is where the two
implementations differ (canvas lines 698-709 vs window lines 1148-1157). -/
def leftNewStartClamp (impl : ResizeImpl) (snap : DragSnapshot) (newStart₀ : ℚ) : ℚ :=
  match impl with
  | .canvas => max newStart₀ (snap.originalStartTime + minimumTime snap.originalKeyframes)
  | .window =>
      if newStart₀ > snap.originalStartTime then
        min newStart₀ (snap.originalStartTime + minimumTime snap.originalKeyframes)
      else newStart₀

/-- The rebuilt keyframes of a left-edge drag (identical formulas in both
implementations, canvas lines 724-746 and window lines 1226-1239): absolute
mode keeps `(originalStart + time) - newStart`; proportional mode scales by
`(time / originalDuration) * newDuration`.  Mapping the empty list models the
source's `length > 0` guard. -/
def leftUpdates (snap : DragSnapshot) (proportionalMode : Bool)
    (newStart newDuration : ℚ) : List FlatKeyframe :=
  snap.originalKeyframes.map fun kf =>
    ⟨kf.curve,
      if proportionalMode then (kf.time / snap.originalDuration) * newDuration
      else (snap.originalStartTime + kf.time) - newStart,
      kf.value⟩

/-- The rebuilt keyframes of a right-edge drag.  The canvas handler rebuilds
only in proportional mode, via `time * (newDuration / originalDuration)`
(lines 804-821); the window handler always rebuilds, with unchanged times in
absolute mode and `(time / originalDuration) * newDuration` in proportional
mode (lines 1226-1239). -/
def rightUpdates (impl : ResizeImpl) (snap : DragSnapshot) (proportionalMode : Bool)
    (newDuration : ℚ) : List FlatKeyframe :=
  match impl with
  | .canvas =>
      if proportionalMode then
        snap.originalKeyframes.map fun kf =>
          ⟨kf.curve, kf.time * (newDuration / snap.originalDuration), kf.value⟩
      else []
  | .window =>
      snap.originalKeyframes.map fun kf =>
        ⟨kf.curve,
          if proportionalMode then (kf.time / snap.originalDuration) * newDuration
          else kf.time,
          kf.value⟩

/-- One resize move event's computation, per implementation, from the fixed
drag snapshot, the snapped pointer time and the modifier (proportional) flag.

Left edge (canvas lines 689-779, window lines 1143-1168): candidate
`newStart = min(snappedTime, originalEnd - 0.1)`, then the absolute-mode
keyframe clamp `leftNewStartClamp` when keyframes exist;
`newDuration = originalEnd - newStart`.

Right edge (canvas lines 780-857, window lines 1169-1191): candidate
`newEnd = max(snappedTime, originalStart + 0.1)`, raised to the latest
keyframe's absolute time in absolute mode; the start time never changes (the
canvas handler's compensating `updateClipTime` never fires because
`draggedClip` is the stale pre-drag object whose `startTime` still equals
`originalClipStartTime`). -/
def computeResize (impl : ResizeImpl) (handle : ResizeHandle) (snap : DragSnapshot)
    (snappedTime : ℚ) (proportionalMode : Bool) : ResizeOutcome :=
  match handle with
  | .left =>
      let originalEnd := snap.originalStartTime + snap.originalDuration
      let maxStart := originalEnd - 1/10
      let newStart₀ := min snappedTime maxStart
      let newStart :=
        if proportionalMode = false ∧ snap.originalKeyframes ≠ [] then
          leftNewStartClamp impl snap newStart₀
        else newStart₀
      let newDuration := originalEnd - newStart
      ⟨newStart, newDuration, leftUpdates snap proportionalMode newStart newDuration⟩
  | .right =>
      let minEnd := snap.originalStartTime + 1/10
      let newEnd₀ := max snappedTime minEnd
      let newEnd :=
        if proportionalMode = false ∧ snap.originalKeyframes ≠ [] then
          max newEnd₀ (snap.originalStartTime + maximumTime snap.originalKeyframes)
        else newEnd₀
      let newDuration := newEnd - snap.originalStartTime
      ⟨snap.originalStartTime, newDuration,
        rightUpdates impl snap proportionalMode newDuration⟩

/-- **C2**: right-edge resize in absolute mode, in both implementations:
`newEnd = max(max(snappedTime, originalStart + 0.1), originalStart +
latestOriginalKeyframeRelativeTime)`, the start time is unchanged, the new
duration is `newEnd - originalStart` and is never below the latest original
keyframe's relative time; concretely, the snapshot `start=10, duration=20`,
keyframes at relative `{10, 15}`, dragged to any pointer time below `25`,
ends with duration exactly `15`. -/
theorem rightEdgeAbsoluteClamp (impl : ResizeImpl) (snap : DragSnapshot) (p : ℚ)
    (hkf : snap.originalKeyframes ≠ []) :
    (computeResize impl .right snap p false).newStart = snap.originalStartTime ∧
    (computeResize impl .right snap p false).newDuration =
      max (max p (snap.originalStartTime + 1/10))
          (snap.originalStartTime + maximumTime snap.originalKeyframes) -
        snap.originalStartTime ∧
    maximumTime snap.originalKeyframes ≤
      (computeResize impl .right snap p false).newDuration ∧
    (∀ q : ℚ, q < 25 →
      (computeResize impl .right ⟨10, 20, [⟨"p", 10, 0⟩, ⟨"p", 15, 1⟩]⟩ q
          false).newDuration = 15) := by
  refine ⟨?_, ?_, ?_, ?_⟩
  · cases impl <;> simp [computeResize]
  · cases impl <;> simp [computeResize, hkf]
  · have hd : (computeResize impl .right snap p false).newDuration =
        max (max p (snap.originalStartTime + 1/10))
            (snap.originalStartTime + maximumTime snap.originalKeyframes) -
          snap.originalStartTime := by
      cases impl <;> simp [computeResize, hkf]
    rw [hd]
    have hle := le_max_right (max p (snap.originalStartTime + 1/10))
      (snap.originalStartTime + maximumTime snap.originalKeyframes)
    linarith
  · intro q hq
    have hmaxT : maximumTime [⟨"p", 10, 0⟩, ⟨"p", 15, 1⟩] = 15 := by
      norm_num [maximumTime, max_def]
    have hcalc : (computeResize impl .right ⟨10, 20, [⟨"p", 10, 0⟩, ⟨"p", 15, 1⟩]⟩ q
        false).newDuration = max (max q (10 + 1/10)) (10 + 15) - 10 := by
      cases impl <;> simp [computeResize, hmaxT]
    rw [hcalc, max_eq_right (max_le (le_of_lt (by linarith)) (by norm_num))]
    norm_num

/-- Witness for `rightEdgeAbsoluteClamp`: the concrete snapshot dragged to
pointer time `12` keeps its start at `10` and clamps the duration to `15`. -/
theorem rightEdgeAbsoluteClamp_witness :
    (computeResize .canvas .right ⟨10, 20, [⟨"p", 10, 0⟩, ⟨"p", 15, 1⟩]⟩ 12
        false).newStart = 10 ∧
    (computeResize .canvas .right ⟨10, 20, [⟨"p", 10, 0⟩, ⟨"p", 15, 1⟩]⟩ 12
        false).newDuration = 15 := by
  have h := rightEdgeAbsoluteClamp .canvas ⟨10, 20, [⟨"p", 10, 0⟩, ⟨"p", 15, 1⟩]⟩ 12
    (by simp)
  exact ⟨h.1, h.2.2.2 12 (by norm_num)⟩

/-- **C1** (amended, holds for the component-based handler
`handleWindowMouseMove`): a left-edge absolute-mode drag to a snapped pointer
time at or before the original start is not blocked by the earliest keyframe:
`newStart` is exactly the pointer time, the duration grows to
`originalEnd - newStart`, and every keyframe is rebuilt at relative time
`(originalStart + time) - newStart`, keeping its absolute position
`originalStart + time` unchanged.  The canvas-based handler violates this
(see the counterexample): it clamps `newStart` UP to the earliest keyframe's
absolute time, blocking leftward extension. -/
theorem leftEdgeAbsoluteExtend (snap : DragSnapshot) (p : ℚ)
    (hkf : snap.originalKeyframes ≠ []) (hdur : 1/10 ≤ snap.originalDuration)
    (hp : p ≤ snap.originalStartTime) :
    (computeResize .window .left snap p false).newStart = p ∧
    (computeResize .window .left snap p false).newDuration =
      snap.originalStartTime + snap.originalDuration - p ∧
    (computeResize .window .left snap p false).updates =
      snap.originalKeyframes.map (fun kf =>
        ⟨kf.curve, (snap.originalStartTime + kf.time) - p, kf.value⟩) ∧
    ∀ kf ∈ snap.originalKeyframes,
      p + ((snap.originalStartTime + kf.time) - p) =
        snap.originalStartTime + kf.time := by
  have h10 : ((10 : ℚ))⁻¹ = 1/10 := by norm_num
  have hcw : leftNewStartClamp .window snap p = p := by
    simp [leftNewStartClamp, not_lt.mpr hp]
  have hmin10 : min p (snap.originalStartTime + snap.originalDuration - 10⁻¹) = p := by
    apply min_eq_left
    rw [h10]
    linarith
  refine ⟨?_, ?_, ?_, fun kf _ => by ring⟩
  · simp [computeResize, hkf, hcw, hmin10]
  · simp [computeResize, hkf, hcw, hmin10]
  · simp [computeResize, leftUpdates, hkf, hcw, hmin10]

/-- Witness for `leftEdgeAbsoluteExtend`: the claim's concrete scenario —
snapshot `start=10, duration=20`, keyframes at relative `{5, 10}`, dragged to
pointer time `5` — yields `newStart=5`, `duration=25`, and rebuilt keyframes
at relative times `{10, 15}` (absolute `{15, 20}` unchanged). -/
theorem leftEdgeAbsoluteExtend_witness :
    (computeResize .window .left ⟨10, 20, [⟨"p", 5, 0⟩, ⟨"p", 10, 1⟩]⟩ 5
        false).newStart = 5 ∧
    (computeResize .window .left ⟨10, 20, [⟨"p", 5, 0⟩, ⟨"p", 10, 1⟩]⟩ 5
        false).newDuration = 25 ∧
    (computeResize .window .left ⟨10, 20, [⟨"p", 5, 0⟩, ⟨"p", 10, 1⟩]⟩ 5
        false).updates = [⟨"p", 10, 0⟩, ⟨"p", 15, 1⟩] := by
  have h := leftEdgeAbsoluteExtend ⟨10, 20, [⟨"p", 5, 0⟩, ⟨"p", 10, 1⟩]⟩ 5
    (List.cons_ne_nil _ _) (by norm_num) (by norm_num)
  refine ⟨h.1, by rw [h.2.1]; norm_num, by rw [h.2.2.1]; norm_num⟩

/-- **C1** counterexample: the canvas-based handler at the claim's concrete
input — snapshot `start=10, duration=20`, keyframes at relative `{5, 10}`,
absolute-mode left drag to pointer time `5` — produces `newStart = 15` (the
earliest keyframe's absolute time) and `duration = 15`, not the claimed
`newStart = 5`, `duration = 25`: the drag IS blocked by the earliest
keyframe in this implementation. -/
theorem leftEdgeAbsoluteExtend_counterexample :
    (computeResize .canvas .left ⟨10, 20, [⟨"p", 5, 0⟩, ⟨"p", 10, 1⟩]⟩ 5
        false).newStart = 15 ∧
    (computeResize .canvas .left ⟨10, 20, [⟨"p", 5, 0⟩, ⟨"p", 10, 1⟩]⟩ 5
        false).newDuration = 15 ∧
    ¬((computeResize .canvas .left ⟨10, 20, [⟨"p", 5, 0⟩, ⟨"p", 10, 1⟩]⟩ 5
        false).newStart = 5) := by
  have h1 : (computeResize .canvas .left ⟨10, 20, [⟨"p", 5, 0⟩, ⟨"p", 10, 1⟩]⟩ 5
      false).newStart = 15 := by
    simp [computeResize, leftNewStartClamp, minimumTime]
    norm_num [max_def, min_def]
  have h2 : (computeResize .canvas .left ⟨10, 20, [⟨"p", 5, 0⟩, ⟨"p", 10, 1⟩]⟩ 5
      false).newDuration = 15 := by
    simp [computeResize, leftNewStartClamp, minimumTime]
    norm_num [max_def, min_def]
  exact ⟨h1, h2, by rw [h1]; norm_num⟩

/-- **C6** (amended): the canvas-based and component-based left-edge resize
computations agree whenever the gesture is in proportional mode or the
snapshot has no keyframes (and then on the right edge as well); in absolute
mode with keyframes they are NOT equivalent — the canvas handler clamps
`newStart` up to the earliest keyframe's absolute time while the component
handler caps it at that time only when shrinking (see the counterexample). -/
theorem resizeImpl_equiv (handle : ResizeHandle) (snap : DragSnapshot) (p : ℚ)
    (mode : Bool) (h : mode = true ∨ snap.originalKeyframes = []) :
    computeResize .canvas handle snap p mode = computeResize .window handle snap p mode := by
  rcases h with hm | hk
  · subst hm
    cases handle with
    | left => rfl
    | right =>
        simp only [computeResize, rightUpdates, if_pos rfl]
        refine congrArg _ ?_
        refine List.map_congr_left ?_
        intro kf _
        have harith : ∀ n : ℚ, kf.time * (n / snap.originalDuration) =
            kf.time / snap.originalDuration * n := by
          intro n
          rw [div_mul_eq_mul_div, ← mul_div_assoc]
        simp [harith]
  · cases handle with
    | left => simp [computeResize, leftUpdates, hk]
    | right =>
        cases mode with
        | false => simp [computeResize, rightUpdates, hk]
        | true => simp [computeResize, rightUpdates, hk]

/-- Witness for `resizeImpl_equiv`: both implementations compute the same
outcome for a proportional-mode left drag on a snapshot with a keyframe. -/
theorem resizeImpl_equiv_witness :
    computeResize .canvas .left ⟨0, 10, [⟨"p", 5, 1⟩]⟩ 3 true =
      computeResize .window .left ⟨0, 10, [⟨"p", 5, 1⟩]⟩ 3 true :=
  resizeImpl_equiv .left ⟨0, 10, [⟨"p", 5, 1⟩]⟩ 3 true (Or.inl rfl)

/-- **C6** counterexample: in absolute mode with a keyframe at relative time
`5`, a left drag of the snapshot `start=10, duration=20` to pointer time `6`
gives `newStart = 15` under the canvas handler but `newStart = 6` under the
component handler — the two implementations are not equivalent. -/
theorem resizeImpl_equiv_counterexample :
    (computeResize .canvas .left ⟨10, 20, [⟨"p", 5, 0⟩]⟩ 6 false).newStart = 15 ∧
    (computeResize .window .left ⟨10, 20, [⟨"p", 5, 0⟩]⟩ 6 false).newStart = 6 ∧
    computeResize .canvas .left ⟨10, 20, [⟨"p", 5, 0⟩]⟩ 6 false ≠
      computeResize .window .left ⟨10, 20, [⟨"p", 5, 0⟩]⟩ 6 false := by
  have h1 : (computeResize .canvas .left ⟨10, 20, [⟨"p", 5, 0⟩]⟩ 6 false).newStart = 15 := by
    simp [computeResize, leftNewStartClamp, minimumTime]
    norm_num [max_def, min_def]
  have h2 : (computeResize .window .left ⟨10, 20, [⟨"p", 5, 0⟩]⟩ 6 false).newStart = 6 := by
    simp [computeResize, leftNewStartClamp, minimumTime]
    norm_num [max_def, min_def]
  refine ⟨h1, h2, fun heq => ?_⟩
  have := congrArg ResizeOutcome.newStart heq
  rw [h1, h2] at this
  norm_num at this

/-- **C3**: in proportional mode, for both implementations and both edges,
the new duration is computed from the pointer alone (no keyframe-bound
constraint), and every snapshot keyframe is rebuilt at relative time
`originalRelativeTime * (newDuration / originalDuration)`. -/
theorem proportionalScaling (impl : ResizeImpl) (handle : ResizeHandle)
    (snap : DragSnapshot) (p : ℚ) (hdur : 0 < snap.originalDuration) :
    (computeResize impl handle snap p true).newDuration =
      (match handle with
        | .left => snap.originalStartTime + snap.originalDuration -
            min p (snap.originalStartTime + snap.originalDuration - 1/10)
        | .right => max p (snap.originalStartTime + 1/10) - snap.originalStartTime) ∧
    ∀ kf ∈ snap.originalKeyframes,
      (⟨kf.curve,
          kf.time * ((computeResize impl handle snap p true).newDuration /
            snap.originalDuration),
          kf.value⟩ : FlatKeyframe) ∈ (computeResize impl handle snap p true).updates := by
  constructor
  · cases handle <;> simp [computeResize]
  · intro kf hkf
    have harith : ∀ n : ℚ, kf.time * (n / snap.originalDuration) =
        kf.time / snap.originalDuration * n := by
      intro n
      rw [div_mul_eq_mul_div, ← mul_div_assoc]
    cases handle with
    | left =>
        cases impl <;>
          · simp only [computeResize, leftUpdates]
            refine List.mem_map.mpr ⟨kf, hkf, ?_⟩
            simp [harith]
    | right =>
        cases impl with
        | canvas =>
            simp only [computeResize, rightUpdates, if_pos rfl]
            exact List.mem_map.mpr ⟨kf, hkf, rfl⟩
        | window =>
            simp only [computeResize, rightUpdates]
            refine List.mem_map.mpr ⟨kf, hkf, ?_⟩
            simp [harith]

/-- Witness for `proportionalScaling`: a clip of duration `10` with a
keyframe at relative time `5`, resized proportionally from the right edge to
duration `15`, rebuilds that keyframe at relative time `7.5`. -/
theorem proportionalScaling_witness :
    (computeResize .canvas .right ⟨0, 10, [⟨"p", 5, 1⟩]⟩ 15 true).newDuration = 15 ∧
    (⟨"p", 15/2, 1⟩ : FlatKeyframe) ∈
      (computeResize .canvas .right ⟨0, 10, [⟨"p", 5, 1⟩]⟩ 15 true).updates := by
  have h := proportionalScaling .canvas .right ⟨0, 10, [⟨"p", 5, 1⟩]⟩ 15 (by norm_num)
  have hdur : (computeResize .canvas .right ⟨0, 10, [⟨"p", 5, 1⟩]⟩ 15 true).newDuration
      = 15 := by
    rw [h.1]
    norm_num [max_def]
  refine ⟨hdur, ?_⟩
  have hm := h.2 ⟨"p", 5, 1⟩ (List.mem_singleton.mpr rfl)
  rw [hdur] at hm
  norm_num at hm
  convert hm using 2

/-- The source's `updatesByCurve` map (Timeline.svelte lines 750-762 and
1221-1247): group the flat updates by curve name, first-appearance order,
preserving within-curve order — the JS `Map` insertion-order semantics. -/
def groupUpdates : List FlatKeyframe → List (String × List (ℚ × ℚ))
  | [] => []
  | kf :: rest =>
      (kf.curve, (kf.time, kf.value) ::
        (rest.filter fun x => x.curve = kf.curve).map fun x => (x.time, x.value)) ::
      groupUpdates (rest.filter fun x => ¬(x.curve = kf.curve))
termination_by l => l.length
decreasing_by
  simp_wf
  exact Nat.lt_succ_of_le (List.length_filter_le _ _)

/-- The effect on one automation list of the source's clear-then-rebuild of a
single curve (`clearKeyframes` followed by `addKeyframe` for each update,
Timeline.svelte lines 764-775). -/
def rebuildAutomation (parameterName : String) (kvs : List (ℚ × ℚ))
    (automation : List AutomationCurve) : List AutomationCurve :=
  kvs.foldl (fun acc kv => addKeyframeToAutomation acc parameterName kv.1 kv.2)
    (clearKeyframesInAutomation automation parameterName)

/-- The keyframe list produced by rebuilding one curve from its update list
(the first `addKeyframe` creates the curve, later ones insert or overwrite). -/
def buildKeyframes : List (ℚ × ℚ) → List Keyframe
  | [] => []
  | kv :: kvs => kvs.foldl (fun l k => addKeyframeToKeyframes l k.1 k.2) [⟨kv.1, kv.2⟩]

/-- The effect on one automation list of rebuilding every grouped curve in
order. -/
def rebuildGroups (groups : List (String × List (ℚ × ℚ)))
    (automation : List AutomationCurve) : List AutomationCurve :=
  groups.foldl (fun acc g => rebuildAutomation g.1 g.2 acc) automation

/-- Store-level rebuild of one curve: `clearKeyframes` then one `addKeyframe`
per update (Timeline.svelte lines 764-775 / 1249-1254). -/
def applyCurveRebuild (clipId curveName : String) (kvs : List (ℚ × ℚ))
    (t : Timeline) : Timeline :=
  kvs.foldl (fun s kv => timelineAddKeyframe clipId curveName kv.1 kv.2 s)
    (timelineClearKeyframes clipId curveName t)

/-- Store-level rebuild of every grouped curve. -/
def applyAllRebuilds (clipId : String) (groups : List (String × List (ℚ × ℚ)))
    (t : Timeline) : Timeline :=
  groups.foldl (fun s g => applyCurveRebuild clipId g.1 g.2 s) t

/-- One whole resize move event applied to the store: rebuild the affected
curves from the grouped updates, then write the new clip bounds — left drags
write `updateClipTime` then `updateClipDuration` (canvas lines 778-779,
window lines 1167-1168), right drags write only `updateClipDuration` (canvas
lines 852-856 — the compensating `updateClipTime` is dead code, see
`computeResize` — and window line 1190). -/
def resizeStep (impl : ResizeImpl) (handle : ResizeHandle) (snap : DragSnapshot)
    (snappedTime : ℚ) (proportionalMode : Bool) (clipId : String) (t : Timeline) :
    Timeline :=
  match handle with
  | .left =>
      timelineUpdateClipDuration clipId
        (computeResize impl .left snap snappedTime proportionalMode).newDuration
        (timelineUpdateClipTime clipId
          (computeResize impl .left snap snappedTime proportionalMode).newStart
          (applyAllRebuilds clipId
            (groupUpdates (computeResize impl .left snap snappedTime proportionalMode).updates)
            t))
  | .right =>
      timelineUpdateClipDuration clipId
        (computeResize impl .right snap snappedTime proportionalMode).newDuration
        (applyAllRebuilds clipId
          (groupUpdates (computeResize impl .right snap snappedTime proportionalMode).updates)
          t)

theorem updateClip_id (clipId : String) (t : Timeline) :
    updateClip clipId (fun c => c) t = t := by
  simp [updateClip, ite_self]

theorem updateClip_comp (clipId : String) (f g : Clip → Clip)
    (hg : ∀ c, (g c).id = c.id) (t : Timeline) :
    updateClip clipId f (updateClip clipId g t) =
      updateClip clipId (fun c => f (g c)) t := by
  unfold updateClip
  simp only [List.map_map]
  congr 1
  apply List.map_congr_left
  intro track _
  simp only [Function.comp]
  congr 1
  simp only [List.map_map]
  apply List.map_congr_left
  intro clip _
  simp only [Function.comp]
  by_cases hid : clip.id = clipId
  · simp only [if_pos hid, if_pos ((hg clip).trans hid)]
  · simp only [if_neg hid]

def foldKfs (name : String) (kvs : List (ℚ × ℚ)) (a : List AutomationCurve) :
    List AutomationCurve :=
  kvs.foldl (fun acc kv => addKeyframeToAutomation acc name kv.1 kv.2) a

theorem foldl_addKeyframe_eq (clipId name : String) (kvs : List (ℚ × ℚ)) (t : Timeline) :
    kvs.foldl (fun s kv => timelineAddKeyframe clipId name kv.1 kv.2 s) t =
      updateClip clipId
        (fun c => { c with automation := foldKfs name kvs c.automation }) t := by
  induction kvs generalizing t with
  | nil =>
      simp only [List.foldl_nil]
      exact (updateClip_id clipId t).symm
  | cons kv kvs ih =>
      simp only [List.foldl_cons]
      rw [ih]
      unfold timelineAddKeyframe
      rw [updateClip_comp clipId
        (fun c => { c with automation := foldKfs name kvs c.automation })
        (fun c =>
          { c with automation := addKeyframeToAutomation c.automation name kv.1 kv.2 })
        (fun c => rfl) t]
      rfl

theorem applyCurveRebuild_eq (clipId name : String) (kvs : List (ℚ × ℚ)) (t : Timeline) :
    applyCurveRebuild clipId name kvs t =
      updateClip clipId
        (fun c => { c with automation := rebuildAutomation name kvs c.automation }) t := by
  unfold applyCurveRebuild timelineClearKeyframes
  rw [foldl_addKeyframe_eq, updateClip_comp clipId
    (fun c => { c with automation := foldKfs name kvs c.automation })
    (fun c => { c with automation := clearKeyframesInAutomation c.automation name })
    (fun c => rfl) t]
  rfl

theorem applyAllRebuilds_eq (clipId : String) (groups : List (String × List (ℚ × ℚ)))
    (t : Timeline) :
    applyAllRebuilds clipId groups t =
      updateClip clipId
        (fun c => { c with automation := rebuildGroups groups c.automation }) t := by
  induction groups generalizing t with
  | nil => exact (updateClip_id clipId t).symm
  | cons g gs ih =>
      have hstep : applyAllRebuilds clipId (g :: gs) t =
          applyAllRebuilds clipId gs (applyCurveRebuild clipId g.1 g.2 t) := rfl
      rw [hstep, ih, applyCurveRebuild_eq, updateClip_comp clipId
        (fun c => { c with automation := rebuildGroups gs c.automation })
        (fun c => { c with automation := rebuildAutomation g.1 g.2 c.automation })
        (fun c => rfl) t]
      rfl

theorem clearKeyframes_no_name (a : List AutomationCurve) (name : String) :
    ∀ x ∈ clearKeyframesInAutomation a name, x.parameterName ≠ name := by
  intro x hx
  have hfilt := List.of_mem_filter hx
  simpa using hfilt

theorem foldl_addKeyframeToAutomation_append (name : String) (kvs : List (ℚ × ℚ))
    (a₀ : List AutomationCurve) (ks : List Keyframe)
    (h : ∀ x ∈ a₀, x.parameterName ≠ name) :
    kvs.foldl (fun acc kv => addKeyframeToAutomation acc name kv.1 kv.2)
        (a₀ ++ [⟨name, ks⟩]) =
      a₀ ++ [⟨name, kvs.foldl (fun l kv => addKeyframeToKeyframes l kv.1 kv.2) ks⟩] := by
  induction kvs generalizing ks with
  | nil => rfl
  | cons kv kvs ih =>
      simp only [List.foldl_cons]
      rw [addKeyframeToAutomation_found a₀ ⟨name, ks⟩ [] name kv.1 kv.2 h rfl]
      exact ih (addKeyframeToKeyframes ks kv.1 kv.2)

theorem rebuildAutomation_eq (name : String) (kv : ℚ × ℚ) (kvs : List (ℚ × ℚ))
    (a : List AutomationCurve) :
    rebuildAutomation name (kv :: kvs) a =
      clearKeyframesInAutomation a name ++ [⟨name, buildKeyframes (kv :: kvs)⟩] := by
  unfold rebuildAutomation
  simp only [List.foldl_cons]
  rw [addKeyframeToAutomation_noCurve _ name kv.1 kv.2 (clearKeyframes_no_name a name),
    foldl_addKeyframeToAutomation_append name kvs _ [⟨kv.1, kv.2⟩]
      (clearKeyframes_no_name a name)]
  rfl

theorem groupUpdates_cons (kf : FlatKeyframe) (rest : List FlatKeyframe) :
    groupUpdates (kf :: rest) =
      (kf.curve, (kf.time, kf.value) ::
        (rest.filter fun x => x.curve = kf.curve).map fun x => (x.time, x.value)) ::
      groupUpdates (rest.filter fun x => ¬(x.curve = kf.curve)) := by
  rw [groupUpdates]

theorem groupUpdates_nil : groupUpdates [] = [] := by
  rw [groupUpdates]

theorem groupUpdates_snd_ne_nil_aux :
    ∀ (n : ℕ) (l : List FlatKeyframe), l.length ≤ n → ∀ g ∈ groupUpdates l, g.2 ≠ [] := by
  intro n
  induction n with
  | zero =>
      intro l hl g hg
      rw [List.length_eq_zero.mp (Nat.le_zero.mp hl), groupUpdates_nil] at hg
      exact absurd hg (List.not_mem_nil g)
  | succ n ih =>
      intro l hl g hg
      cases l with
      | nil =>
          rw [groupUpdates_nil] at hg
          exact absurd hg (List.not_mem_nil g)
      | cons kf rest =>
          rw [groupUpdates_cons] at hg
          rcases List.mem_cons.mp hg with heq | hmem
          · subst heq
            exact List.cons_ne_nil _ _
          · exact ih (rest.filter fun x => ¬(x.curve = kf.curve))
              (le_trans (List.length_filter_le _ _) (Nat.lt_succ_iff.mp hl)) g hmem

theorem groupUpdates_snd_ne_nil (l : List FlatKeyframe) :
    ∀ g ∈ groupUpdates l, g.2 ≠ [] :=
  groupUpdates_snd_ne_nil_aux l.length l (le_refl _)

theorem groupUpdates_fst_avoid_aux :
    ∀ (n : ℕ) (l : List FlatKeyframe), l.length ≤ n → ∀ name : String,
      (∀ x ∈ l, x.curve ≠ name) → ∀ g ∈ groupUpdates l, g.1 ≠ name := by
  intro n
  induction n with
  | zero =>
      intro l hl name _ g hg
      rw [List.length_eq_zero.mp (Nat.le_zero.mp hl), groupUpdates_nil] at hg
      exact absurd hg (List.not_mem_nil g)
  | succ n ih =>
      intro l hl name hname g hg
      cases l with
      | nil =>
          rw [groupUpdates_nil] at hg
          exact absurd hg (List.not_mem_nil g)
      | cons kf rest =>
          rw [groupUpdates_cons] at hg
          rcases List.mem_cons.mp hg with heq | hmem
          · subst heq
            exact hname kf (List.mem_cons_self kf rest)
          · exact ih (rest.filter fun x => ¬(x.curve = kf.curve))
              (le_trans (List.length_filter_le _ _) (Nat.lt_succ_iff.mp hl)) name
              (fun x hx => hname x (List.mem_cons_of_mem kf (List.mem_of_mem_filter hx)))
              g hmem

theorem groupUpdates_names_nodup_aux :
    ∀ (n : ℕ) (l : List FlatKeyframe), l.length ≤ n →
      ((groupUpdates l).map Prod.fst).Nodup := by
  intro n
  induction n with
  | zero =>
      intro l hl
      rw [List.length_eq_zero.mp (Nat.le_zero.mp hl), groupUpdates_nil]
      exact List.nodup_nil
  | succ n ih =>
      intro l hl
      cases l with
      | nil =>
          rw [groupUpdates_nil]
          exact List.nodup_nil
      | cons kf rest =>
          rw [groupUpdates_cons, List.map_cons, List.nodup_cons]
          constructor
          · intro hmem
            obtain ⟨g, hg, hgeq⟩ := List.mem_map.mp hmem
            exact groupUpdates_fst_avoid_aux n (rest.filter fun x => ¬(x.curve = kf.curve))
              (le_trans (List.length_filter_le _ _) (Nat.lt_succ_iff.mp hl)) kf.curve
              (fun x hx => by simpa using List.of_mem_filter hx) g hg hgeq
          · exact ih (rest.filter fun x => ¬(x.curve = kf.curve))
              (le_trans (List.length_filter_le _ _) (Nat.lt_succ_iff.mp hl))

theorem groupUpdates_names_nodup (l : List FlatKeyframe) :
    ((groupUpdates l).map Prod.fst).Nodup :=
  groupUpdates_names_nodup_aux l.length l (le_refl _)

/-- A curve survives the rebuild untouched iff no grouped update targets its
parameter name. -/
def untouchedBy (groups : List (String × List (ℚ × ℚ))) (c : AutomationCurve) : Bool :=
  groups.all fun g => ¬(g.1 = c.parameterName)

theorem rebuildGroups_eq (groups : List (String × List (ℚ × ℚ)))
    (a : List AutomationCurve) (hnodup : ((groups.map Prod.fst).Nodup))
    (hne : ∀ g ∈ groups, g.2 ≠ []) :
    rebuildGroups groups a =
      a.filter (untouchedBy groups) ++
        groups.map (fun g => ⟨g.1, buildKeyframes g.2⟩) := by
  induction groups generalizing a with
  | nil =>
      have hfil : a.filter (untouchedBy []) = a :=
        List.filter_eq_self.mpr (fun c _ => rfl)
      simp [rebuildGroups, hfil]
  | cons g gs ih =>
      have hg₂ : g.2 ≠ [] := hne g (List.mem_cons_self g gs)
      obtain ⟨kv, kvs, hkv⟩ : ∃ kv kvs, g.2 = kv :: kvs := by
        cases hgl : g.2 with
        | nil => exact absurd hgl hg₂
        | cons x xs => exact ⟨x, xs, rfl⟩
      have hnd := hnodup
      rw [List.map_cons, List.nodup_cons] at hnd
      have hstep : rebuildGroups (g :: gs) a =
          rebuildGroups gs (rebuildAutomation g.1 g.2 a) := rfl
      rw [hstep, ih (rebuildAutomation g.1 g.2 a) hnd.2
        (fun g' hg' => hne g' (List.mem_cons_of_mem g hg'))]
      rw [hkv, rebuildAutomation_eq g.1 kv kvs a, List.filter_append]
      have hkeep : (([⟨g.1, buildKeyframes (kv :: kvs)⟩] : List AutomationCurve).filter
          (untouchedBy gs)) = [⟨g.1, buildKeyframes (kv :: kvs)⟩] := by
        have hall : untouchedBy gs ⟨g.1, buildKeyframes (kv :: kvs)⟩ = true := by
          unfold untouchedBy
          rw [List.all_eq_true]
          intro g' hg'
          simp only [decide_eq_true_eq]
          intro heq
          exact hnd.1 (heq ▸ List.mem_map_of_mem Prod.fst hg')
        simp [List.filter, hall]
      have hfilter : (clearKeyframesInAutomation a g.1).filter (untouchedBy gs) =
          a.filter (untouchedBy (g :: gs)) := by
        unfold clearKeyframesInAutomation
        rw [List.filter_filter]
        apply List.filter_congr
        intro c _
        unfold untouchedBy
        rw [List.all_cons, Bool.and_comm]
        congr 1
        rw [decide_eq_decide]
        exact ne_comm
      rw [hkeep, hfilter]
      simp [List.append_assoc, hkv]

theorem filter_untouched_idem (groups : List (String × List (ℚ × ℚ)))
    (a : List AutomationCurve) :
    (a.filter (untouchedBy groups)).filter (untouchedBy groups) =
      a.filter (untouchedBy groups) := by
  rw [List.filter_filter]
  apply List.filter_congr
  intro c _
  rw [Bool.and_self]

theorem filter_untouched_rebuilt (groups : List (String × List (ℚ × ℚ))) :
    (groups.map (fun g => (⟨g.1, buildKeyframes g.2⟩ : AutomationCurve))).filter
      (untouchedBy groups) = [] := by
  rw [List.filter_eq_nil_iff]
  intro c hc
  obtain ⟨g, hg, hgeq⟩ := List.mem_map.mp hc
  subst hgeq
  unfold untouchedBy
  simp only [List.all_eq_true, not_forall, Bool.not_eq_true]
  refine ⟨g, hg, ?_⟩
  simp

theorem rebuildGroups_idem (groups : List (String × List (ℚ × ℚ)))
    (a : List AutomationCurve) (hnodup : ((groups.map Prod.fst).Nodup))
    (hne : ∀ g ∈ groups, g.2 ≠ []) :
    rebuildGroups groups (rebuildGroups groups a) = rebuildGroups groups a := by
  rw [rebuildGroups_eq groups a hnodup hne,
    rebuildGroups_eq groups _ hnodup hne,
    List.filter_append, filter_untouched_idem, filter_untouched_rebuilt,
    List.append_nil]

theorem resizeStep_eq_left (impl : ResizeImpl) (snap : DragSnapshot) (p : ℚ)
    (mode : Bool) (clipId : String) (t : Timeline) :
    resizeStep impl .left snap p mode clipId t =
      updateClip clipId (fun c =>
        { c with
            automation := rebuildGroups
              (groupUpdates (computeResize impl .left snap p mode).updates) c.automation,
            startTime := (computeResize impl .left snap p mode).newStart,
            duration := max (1/10) (computeResize impl .left snap p mode).newDuration }) t := by
  calc resizeStep impl .left snap p mode clipId t
      = updateClip clipId
          (fun c => { c with duration := max (1/10) (computeResize impl .left snap p mode).newDuration })
          (updateClip clipId
            (fun c => { c with startTime := (computeResize impl .left snap p mode).newStart })
            (applyAllRebuilds clipId
              (groupUpdates (computeResize impl .left snap p mode).updates) t)) := rfl
    _ = updateClip clipId
          (fun c => { c with duration := max (1/10) (computeResize impl .left snap p mode).newDuration })
          (updateClip clipId
            (fun c => { c with startTime := (computeResize impl .left snap p mode).newStart })
            (updateClip clipId
              (fun c => { c with automation := rebuildGroups (groupUpdates (computeResize impl .left snap p mode).updates) c.automation })
              t)) := by
        rw [applyAllRebuilds_eq]
    _ = updateClip clipId
          (fun c => { c with duration := max (1/10) (computeResize impl .left snap p mode).newDuration })
          (updateClip clipId
            (fun c => { id := c.id, shaderId := c.shaderId, shaderName := c.shaderName, startTime := (computeResize impl .left snap p mode).newStart, duration := c.duration, automation := rebuildGroups (groupUpdates (computeResize impl .left snap p mode).updates) c.automation, alpha := c.alpha })
            t) := by
        rw [updateClip_comp clipId
          (fun c => { c with startTime := (computeResize impl .left snap p mode).newStart })
          (fun c => { c with automation := rebuildGroups (groupUpdates (computeResize impl .left snap p mode).updates) c.automation })
          (fun c => rfl) t]
    _ = updateClip clipId (fun c =>
          { c with
              automation := rebuildGroups
                (groupUpdates (computeResize impl .left snap p mode).updates) c.automation,
              startTime := (computeResize impl .left snap p mode).newStart,
              duration := max (1/10) (computeResize impl .left snap p mode).newDuration }) t := by
        rw [updateClip_comp clipId
          (fun c => { c with duration := max (1/10) (computeResize impl .left snap p mode).newDuration })
          (fun c => { id := c.id, shaderId := c.shaderId, shaderName := c.shaderName, startTime := (computeResize impl .left snap p mode).newStart, duration := c.duration, automation := rebuildGroups (groupUpdates (computeResize impl .left snap p mode).updates) c.automation, alpha := c.alpha })
          (fun c => rfl) t]

theorem resizeStep_eq_right (impl : ResizeImpl) (snap : DragSnapshot) (p : ℚ)
    (mode : Bool) (clipId : String) (t : Timeline) :
    resizeStep impl .right snap p mode clipId t =
      updateClip clipId (fun c =>
        { c with
            automation := rebuildGroups
              (groupUpdates (computeResize impl .right snap p mode).updates) c.automation,
            duration := max (1/10) (computeResize impl .right snap p mode).newDuration }) t := by
  calc resizeStep impl .right snap p mode clipId t
      = updateClip clipId
          (fun c => { c with duration := max (1/10) (computeResize impl .right snap p mode).newDuration })
          (applyAllRebuilds clipId
            (groupUpdates (computeResize impl .right snap p mode).updates) t) := rfl
    _ = updateClip clipId
          (fun c => { c with duration := max (1/10) (computeResize impl .right snap p mode).newDuration })
          (updateClip clipId
            (fun c => { c with automation := rebuildGroups (groupUpdates (computeResize impl .right snap p mode).updates) c.automation })
            t) := by
        rw [applyAllRebuilds_eq]
    _ = updateClip clipId (fun c =>
          { c with
              automation := rebuildGroups
                (groupUpdates (computeResize impl .right snap p mode).updates) c.automation,
              duration := max (1/10) (computeResize impl .right snap p mode).newDuration }) t := by
        rw [updateClip_comp clipId
          (fun c => { c with duration := max (1/10) (computeResize impl .right snap p mode).newDuration })
          (fun c => { c with automation := rebuildGroups (groupUpdates (computeResize impl .right snap p mode).updates) c.automation })
          (fun c => rfl) t]

/-- **C4**: the resize move-step is idempotent.  For every fixed drag snapshot,
handle, snapped pointer time and modifier state, in either implementation,
applying the full store write of one move event twice in succession — clear
and rebuild every grouped curve from the snapshot, then write the new clip
start time (left drags) and duration — produces exactly the same store state
as applying it once: the rebuilt curves are functions of the snapshot alone,
the second rebuild removes exactly the curves it re-appends, and the bound
writes are constant. -/
theorem resizeStep_idempotent (impl : ResizeImpl) (handle : ResizeHandle)
    (snap : DragSnapshot) (p : ℚ) (mode : Bool) (clipId : String) (t : Timeline) :
    resizeStep impl handle snap p mode clipId
        (resizeStep impl handle snap p mode clipId t) =
      resizeStep impl handle snap p mode clipId t := by
  have hA : ∀ a, rebuildGroups (groupUpdates (computeResize impl handle snap p mode).updates)
      (rebuildGroups (groupUpdates (computeResize impl handle snap p mode).updates) a) =
      rebuildGroups (groupUpdates (computeResize impl handle snap p mode).updates) a :=
    fun a => rebuildGroups_idem _ a (groupUpdates_names_nodup _) (groupUpdates_snd_ne_nil _)
  cases handle with
  | left =>
      rw [resizeStep_eq_left, resizeStep_eq_left, updateClip_comp clipId
        (fun c => { c with automation := rebuildGroups (groupUpdates (computeResize impl .left snap p mode).updates) c.automation, startTime := (computeResize impl .left snap p mode).newStart, duration := max (1/10) (computeResize impl .left snap p mode).newDuration })
        (fun c => { c with automation := rebuildGroups (groupUpdates (computeResize impl .left snap p mode).updates) c.automation, startTime := (computeResize impl .left snap p mode).newStart, duration := max (1/10) (computeResize impl .left snap p mode).newDuration })
        (fun c => rfl) t]
      congr 1
      funext c
      simp only [hA]
  | right =>
      rw [resizeStep_eq_right, resizeStep_eq_right, updateClip_comp clipId
        (fun c => { c with automation := rebuildGroups (groupUpdates (computeResize impl .right snap p mode).updates) c.automation, duration := max (1/10) (computeResize impl .right snap p mode).newDuration })
        (fun c => { c with automation := rebuildGroups (groupUpdates (computeResize impl .right snap p mode).updates) c.automation, duration := max (1/10) (computeResize impl .right snap p mode).newDuration })
        (fun c => rfl) t]
      congr 1
      funext c
      simp only [hA]
